import Mathlib

/-!
Verification of the claude-gateway hot request path against its Go sources.

Shallow embedding conventions used throughout this file:
* time instants and durations are integers in milliseconds (`Int`);
* Go `float64` quantities (EWMA latency, scores) are modelled as exact
  rationals (`ℚ`), so the algebraic shape of the formulas is verified while
  IEEE rounding is abstracted away;
* Go machine integers are modelled as `Nat`/`Int` (none of the verified code
  relies on wrap-around);
* Go JSON values (`any` trees produced by `encoding/json`) are modelled by
  the inductive `Jx`; a Go string that is the `json.Marshal` image of a value
  `v` is represented by `v` itself where only its round-trip through
  `json.Unmarshal` matters (Go guarantees `Unmarshal (Marshal v) = v` on this
  domain);
* Go maps used as association tables are modelled as association lists with
  Go-map lookup/insert/delete semantics.
-/

namespace Gateway


/-- Model of a decoded Go JSON value (`any` as produced by `encoding/json`).
Numbers are modelled as integers; no verified claim depends on numeric
payloads. -/
inductive Jx where
  | null : Jx
  | bool (b : Bool) : Jx
  | num (n : Int) : Jx
  | str (s : String) : Jx
  | arr (xs : List Jx) : Jx
  | obj (fields : List (String × Jx)) : Jx
deriving Repr

mutual

/-- Model of `json.Marshal` on `Jx` values (string escaping elided; no claim
inspects the characters of an encoded value). -/
def Jx.enc : Jx → String
  | .null => "null"
  | .bool b => if b then "true" else "false"
  | .num n => toString n
  | .str s => "\"" ++ s ++ "\""
  | .arr xs => "[" ++ Jx.encArr xs ++ "]"
  | .obj fs => "\x7b" ++ Jx.encObj fs ++ "\x7d"

/-- Comma-joined encoding of a JSON array body. -/
def Jx.encArr : List Jx → String
  | [] => ""
  | [x] => Jx.enc x
  | x :: y :: xs => Jx.enc x ++ "," ++ Jx.encArr (y :: xs)

/-- Comma-joined encoding of a JSON object body. -/
def Jx.encObj : List (String × Jx) → String
  | [] => ""
  | [(k, v)] => "\"" ++ k ++ "\":" ++ Jx.enc v
  | (k, v) :: y :: xs => "\"" ++ k ++ "\":" ++ Jx.enc v ++ "," ++ Jx.encObj (y :: xs)

end

/-! ## Credential health registry (internal/router, `credentialState`)

Mirrors the per-credential state of `credentialState` and the update rules of
`Router.EndRequest` / `Router.startRequest` / `Router.isCredentialOpen`.
`openUntil = none` models the Go zero `time.Time`. -/

/-- Per-credential health state (`credentialState` in the router). -/
structure CredState where
  inflight : Int := 0
  failures : Nat := 0
  successes : Nat := 0
  total : Nat := 0
  ewmaLatency : ℚ := 0
  openUntil : Option Int := none
  lastStatus : Nat := 0
deriving Repr, DecidableEq

/-- `Router.startRequest`: increments the credential inflight counter. -/
def startRequest (st : CredState) : CredState :=
  { st with inflight := st.inflight + 1 }

/-- 429 circuit-open duration (ms): `min(5·2^min(failures,6) s, 2 min)`. -/
def backoff429 (failures : Nat) : Int :=
  min (5000 * 2 ^ min failures 6) 120000

/-- 5xx / network circuit-open duration (ms): `min(15·2^min(failures,6) s, 5 min)`. -/
def backoff5xx (failures : Nat) : Int :=
  min (15000 * 2 ^ min failures 6) 300000

/-- `Router.EndRequest` state update for one credential (time in ms).
Follows the Go source line by line: decrement inflight, bump totals and the
EWMA, then either reset failure state on an accepted response or increment
`failures` and open the circuit according to `status`. -/
def endRequest (st : CredState) (ok : Bool) (status : Nat) (latMs : ℚ) (now : Int) :
    CredState :=
  let st1 : CredState :=
    { st with
      inflight := st.inflight - 1
      total := st.total + 1
      lastStatus := status
      ewmaLatency :=
        if st.ewmaLatency = 0 then latMs
        else if 0 < latMs then st.ewmaLatency * (4 / 5) + latMs * (1 / 5)
        else st.ewmaLatency }
  if ok = true ∧ 200 ≤ status ∧ status < 500 ∧ status ≠ 429 ∧ status ≠ 401 ∧ status ≠ 403 then
    { st1 with successes := st1.successes + 1, failures := 0, openUntil := none }
  else
    let f := st1.failures + 1
    let st2 := { st1 with failures := f }
    if status = 401 ∨ status = 403 then
      { st2 with openUntil := some (now + 900000) }
    else if status = 429 then
      { st2 with openUntil := some (now + backoff429 f) }
    else if 500 ≤ status ∨ status = 0 then
      { st2 with openUntil := some (now + backoff5xx f) }
    else if 3 ≤ f then
      { st2 with openUntil := some (now + 30000) }
    else st2

/-- `Router.isCredentialOpen`: the circuit is open while `openUntil` is set
and `now` is before it. -/
def isOpen (st : CredState) (now : Int) : Bool :=
  match st.openUntil with
  | none => false
  | some u => decide (now < u)

/-- `Router.credentialScore`: weight clamped to at least 1, then (when the
credential has health state) `weight · health · failPenalty · latencyPenalty ·
inflightPenalty`; with no state the score is `weight / (1 + inflight)` with
inflight 0. Floats are modelled as exact rationals. -/
def credentialScore (baseWeight : Int) (state : Option CredState) : ℚ :=
  let w : ℚ := if baseWeight ≤ 0 then 1 else (baseWeight : ℚ)
  match state with
  | none => w / (1 + 0)
  | some st =>
    let health : ℚ := ((st.successes : ℚ) + 1) / ((st.total : ℚ) + 2)
    let failPenalty : ℚ := 1 / (1 + (st.failures : ℚ))
    let latPenalty : ℚ :=
      if 0 < st.ewmaLatency then 1 / (1 + st.ewmaLatency / 2500) else 1
    let inflightPenalty : ℚ := 1 / (1 + (st.inflight : ℚ))
    w * health * failPenalty * latPenalty * inflightPenalty

/-- A slow, loaded credential state used to witness the scoring claims. -/
def scoreStateSlow : CredState :=
  { inflight := 1, failures := 1, successes := 3, total := 4, ewmaLatency := 2500 }

/-- A recovered credential state used to witness the scoring claims. -/
def scoreStateFast : CredState :=
  { inflight := 0, failures := 0, successes := 3, total := 4, ewmaLatency := 0 }

/-- ASCII lowering of one character (`strings.ToLower` restricted to ASCII). -/
def charLower (c : Char) : Char :=
  if 65 ≤ c.toNat ∧ c.toNat ≤ 90 then Char.ofNat (c.toNat + 32) else c

/-- `strings.ToLower` (ASCII model). -/
def goLower (s : String) : String :=
  String.mk (s.data.map charLower)

/-- White-space test of `strings.TrimSpace` (ASCII model). -/
def isSpaceChar (c : Char) : Bool :=
  c = ' ' || c = '\t' || c = '\n' || c = '\r'

/-- `strings.TrimSpace` (ASCII model). -/
def goTrim (s : String) : String :=
  String.mk (((s.data.dropWhile isSpaceChar).reverse.dropWhile isSpaceChar).reverse)

/-! ## Route stickiness cache (`Router.RecordRouteResult`, `Router.routeKey`)

The Go `map[string]routeCacheEntry` is modelled as an association list with
map semantics: `rcSet` replaces any binding of the key, `rcDel` removes it,
`rcLookup` finds the (unique) binding. -/

/-- One stickiness cache value (`routeCacheEntry`). -/
structure RouteEntry where
  credentialID : Nat
  expiresAt : Int
deriving Repr, DecidableEq

/-- Association-list lookup with Go-map semantics. -/
def rcLookup : List (String × RouteEntry) → String → Option RouteEntry
  | [], _ => none
  | (k, e) :: rest, key => if k = key then some e else rcLookup rest key

/-- Go-map `delete`: removes every binding of the key. -/
def rcDel : List (String × RouteEntry) → String → List (String × RouteEntry)
  | [], _ => []
  | (k, e) :: rest, key =>
    if k = key then rcDel rest key else (k, e) :: rcDel rest key

/-- Go-map assignment: binds the key, replacing any previous binding. -/
def rcSet (c : List (String × RouteEntry)) (key : String) (e : RouteEntry) :
    List (String × RouteEntry) :=
  (key, e) :: rcDel c key

/-- `Router.routeKey`: `"<poolID>|<lower(trim(facade))>|<trim(model)>"`. -/
def routeKey (poolID : Nat) (facade model : String) : String :=
  toString poolID ++ "|" ++ goLower (goTrim facade) ++ "|" ++ goTrim model

/-- The eviction status class of `RecordRouteResult`:
401, 403, 429, ≥ 500 or 0. -/
def isEvictStatus (status : Nat) : Bool :=
  status == 401 || status == 403 || status == 429 || decide (500 ≤ status) || status == 0

/-- `Router.RecordRouteResult` (route-cache TTL 90 s = 90000 ms): returns the
updated cache. Calls with a zero pool or credential id are ignored; on `ok`
the entry is stored with `now + 90 s`; otherwise an eviction-class status
deletes the entry when it currently points to the same credential. -/
def recordRouteResult (c : List (String × RouteEntry)) (poolID : Nat) (facade model : String)
    (credentialID : Nat) (ok : Bool) (status : Nat) (now : Int) :
    List (String × RouteEntry) :=
  if poolID = 0 ∨ credentialID = 0 then c
  else
    let key := routeKey poolID facade model
    if ok then rcSet c key ⟨credentialID, now + 90000⟩
    else if isEvictStatus status then
      match rcLookup c key with
      | some cur => if cur.credentialID = credentialID then rcDel c key else c
      | none => c
    else c

/-- The bounded scan loop of the legacy fallback. `count` is the pool counter
value returned by the atomic increment; Go indexing `ids[idx]` is modelled by
`getD` (the index is always in range). -/
def scanFrom (ids : List Nat) (count : Nat) (avail : Nat → Bool) : Option Nat :=
  (List.range ids.length).findSome? fun i =>
    if avail (ids.getD ((count + i) % ids.length) 0) then
      some (ids.getD ((count + i) % ids.length) 0)
    else none

/-- The legacy fallback of `pickCredentialFromPool`. -/
def pickCredentialLegacy (strategy : String) (credentialIDs expandedIDs : List Nat)
    (count : Nat) (avail : Nat → Bool) : Option Nat :=
  scanFrom
    (if strategy = "weighted_rr" ∧ expandedIDs ≠ [] then expandedIDs else credentialIDs)
    count avail

/-- Modelled from the spec words for C4 only: a scan that starts at index
`(counter − 1) mod len(expanded)`, for comparison with the source scan. -/
def scanFromSpecStart (ids : List Nat) (count : Nat) (avail : Nat → Bool) : Option Nat :=
  (List.range ids.length).findSome? fun i =>
    if avail (ids.getD ((count - 1 + i) % ids.length) 0) then
      some (ids.getD ((count - 1 + i) % ids.length) 0)
    else none

/-- Association-list lookup for a Go `map[string]string`. -/
def assocLookup : List (String × String) → String → Option String
  | [], _ => none
  | (k, v) :: rest, key => if k = key then some v else assocLookup rest key

/-- `parseStringMapJSON` on an already-decoded JSON object: keeps exactly the
string-valued fields, keys and values verbatim. -/
def parseStringMap (entries : List (String × Jx)) : List (String × String) :=
  entries.filterMap fun p =>
    match p.2 with
    | .str s => some (p.1, s)
    | _ => none

/-- `strings.Contains`. -/
def strContains (s sub : String) : Bool :=
  s.toList.tails.any fun t => sub.toList.isPrefixOf t

/-- The additive candidate score of `pickModelForAlias` (input already
lowercased by the caller loop). -/
def aliasScoreOf (isSmall : Bool) (id : String) : Int :=
  let s := goLower id
  let score : Int :=
    if isSmall then
      (if strContains s "haiku" then 6 else 0)
      + (if strContains s "mini" || strContains s "small" then 5 else 0)
      + (if strContains s "flash" || strContains s "lite" then 4 else 0)
      + (if strContains s "nano" then 3 else 0)
      + (if strContains s "3b" || strContains s "4b" || strContains s "7b"
            || strContains s "8b" then 2 else 0)
      + (if strContains s "sonnet" || strContains s "opus" then -3 else 0)
    else
      (if strContains s "sonnet" then 6 else 0)
      + (if strContains s "opus" then 5 else 0)
      + (if strContains s "claude" then 4 else 0)
      + (if strContains s "gpt-4" || strContains s "kimi" || strContains s "glm"
            || strContains s "deepseek" then 3 else 0)
      + (if strContains s "coder" || strContains s "code" then 4 else 0)
      + (if strContains s "reasoner" || strContains s "thinking" then 2 else 0)
      + (if strContains s "haiku" || strContains s "mini" || strContains s "flash"
            || strContains s "lite" then -2 else 0)
  score - min (id.length / 12 : Nat) 6

/-- `pickModelForAlias`: scores every published model id and keeps the best
one (ties broken by shorter id, then lexicographically smaller id). The Go
map iteration is modelled as a fold over a list; the strict preference order
makes the result independent of iteration order. -/
def pickModelForAlias (models : List String) (alias0 : String) : String :=
  let aliasL := goLower (goTrim alias0)
  if aliasL = "" ∨ models = [] then ""
  else
    let isSmall := strContains aliasL "small" || strContains aliasL "haiku"
      || strContains aliasL "fast"
    let step := fun (best : Option (String × Int)) (id : String) =>
      let sc := aliasScoreOf isSmall id
      match best with
      | none => some (id, sc)
      | some (bid, bsc) =>
        if bsc < sc ∨ (sc = bsc ∧ (id.length < bid.length
            ∨ (id.length = bid.length ∧ id < bid))) then
          some (id, sc)
        else some (bid, bsc)
    match models.foldl step none with
    | none => ""
    | some (id, _) => id

/-- Upstream model resolution inside `pickUpstream`: overlay the provider
model map, then the pool model map (both exact-key lookups, empty mapped
values ignored), then the published-models fallback. -/
def pickUpstreamModel (provMap poolMap : List (String × String)) (provModels : List String)
    (model : String) : String :=
  let up1 :=
    match assocLookup provMap model with
    | some v => if v ≠ "" then v else model
    | none => model
  let up2 :=
    match assocLookup poolMap model with
    | some v => if v ≠ "" then v else up1
    | none => up1
  if provModels ≠ [] then
    if provModels.contains up2 then up2
    else
      match pickModelForAlias provModels model with
      | "" => up2
      | fb => fb
  else up2

/-- Modelled from the spec words for C5 only: a model-map lookup that
lowercases the stored keys and the requested model, for comparison with the
source lookup. -/
def lookupLowerSpec (m : List (String × String)) (key : String) : Option String :=
  assocLookup (m.map fun p => (goLower p.1, p.2)) (goLower key)

/-- One registry / route-cache operation performed by the handler. -/
inductive REvent where
  | start (cid : Nat) : REvent
  | endReq (cid : Nat) (ok : Bool) (status : Nat) : REvent
  | record (pid : Nat) (facade model : String) (cid : Nat) (ok : Bool) (status : Nat) : REvent
deriving Repr, DecidableEq

/-- Outcome of `PickUpstream` / `PickUpstreamExclude` for one attempt. -/
inductive PickOutcome where
  | pickErr : PickOutcome
  | picked (cid pid : Nat) : PickOutcome
deriving Repr, DecidableEq

/-- Outcome of one attempt's upstream interaction in the `"anthropic"` case:
request remarshal failure, transport error, or a response with an HTTP status
(`copyErr` is the stream-copy error of `copyAnthropicSSEWithUsage`). -/
inductive CallOutcome where
  | marshalErr : CallOutcome
  | netErr : CallOutcome
  | resp (status : Nat) (copyErr : Bool) : CallOutcome
deriving Repr, DecidableEq

/-- The events of the tail of the `"anthropic"` case (after `copyHeader` /
`WriteHeader`): stream path ends with `EndRequest(err == nil && ok)` and
`RecordRouteResult`, non-stream path with `EndRequest(ok)` and
`RecordRouteResult(ok)`. -/
def anthTail (stream : Bool) (origModel : String) (cid pid status : Nat) (ok copyErr : Bool) :
    List REvent :=
  if stream then
    [REvent.endReq cid (!copyErr && ok) status,
     REvent.record pid "anthropic" origModel cid (!copyErr && ok) status]
  else
    [REvent.endReq cid ok status, REvent.record pid "anthropic" origModel cid ok status]

/-- The handler retry loop of `createMessage` for the `"anthropic"` provider
case, as the list of registry events it performs. The second `Nat` is the
remaining loop iterations (`maxAttempts − attempt`). -/
def anthLoop (stream : Bool) (origModel : String) (pick : Nat → PickOutcome)
    (call : Nat → CallOutcome) (maxA : Nat) : Nat → Nat → List REvent
  | _, 0 => []
  | attempt, fuel + 1 =>
    match pick attempt with
    | .pickErr => []
    | .picked cid pid =>
      REvent.start cid ::
      match call attempt with
      | .marshalErr => [REvent.endReq cid false 0]
      | .netErr =>
        REvent.endReq cid false 0 ::
        (if attempt + 1 < maxA then anthLoop stream origModel pick call maxA (attempt + 1) fuel
         else [])
      | .resp status copyErr =>
        let ok := decide (status < 500) && !(status == 429)
        if ok then anthTail stream origModel cid pid status ok copyErr
        else
          REvent.endReq cid false status ::
          (if attempt + 1 < maxA then
             anthLoop stream origModel pick call maxA (attempt + 1) fuel
           else anthTail stream origModel cid pid status ok copyErr)

/-- `createMessage` (anthropic provider case): `maxAttempts = 1` for streams,
2 otherwise. -/
def anthCreateMessage (stream : Bool) (origModel : String) (pick : Nat → PickOutcome)
    (call : Nat → CallOutcome) : List REvent :=
  anthLoop stream origModel pick call (if stream then 1 else 2) 0 (if stream then 1 else 2)

/-- Number of `StartRequest` events for a credential in a trace. -/
def countStart (t : List REvent) (cid : Nat) : Nat :=
  t.countP fun e =>
    match e with
    | .start c => c == cid
    | _ => false

/-- Number of `EndRequest` events for a credential in a trace. -/
def countEnd (t : List REvent) (cid : Nat) : Nat :=
  t.countP fun e =>
    match e with
    | .endReq c _ _ => c == cid
    | _ => false

/-- One element of a streamed OpenAI `delta.tool_calls` array (absent map
fields default to `""`). -/
structure OTCDelta where
  id : String := ""
  name : String := ""
  args : String := ""
deriving Repr, DecidableEq

/-- A streamed OpenAI chunk `delta` (a field is `none` when the key is
missing or not a string/array). -/
structure ODelta where
  reasoning : Option String := none
  content : Option String := none
  toolCalls : Option (List OTCDelta) := none
deriving Repr, DecidableEq

/-- A streamed OpenAI chunk choice. -/
structure OChoice where
  delta : Option ODelta := none
  finishReason : Option String := none
deriving Repr, DecidableEq

/-- One SSE block of an inbound OpenAI stream. -/
inductive OInBlock where
  | emptyData : OInBlock
  | done : OInBlock
  | malformed : OInBlock
  | chunk (choices : List OChoice) : OInBlock
deriving Repr, DecidableEq

/-- The `content_block` payload of an emitted Anthropic `content_block_start`. -/
inductive CBKind where
  | thinkingCB : CBKind
  | textCB : CBKind
  | toolUseCB (id name : String) : CBKind
deriving Repr, DecidableEq

/-- The `delta` payload of an emitted Anthropic `content_block_delta`. -/
inductive DKind where
  | thinkingD (s : String) : DKind
  | textD (s : String) : DKind
  | inputJsonD (s : String) : DKind
deriving Repr, DecidableEq

/-- An emitted Anthropic SSE event. -/
inductive AEvent where
  | messageStart : AEvent
  | contentBlockStart (index : Nat) (cb : CBKind) : AEvent
  | contentBlockDelta (index : Nat) (d : DKind) : AEvent
  | contentBlockStop (index : Nat) : AEvent
  | messageDelta (stopReason : String) : AEvent
  | messageStop : AEvent
deriving Repr, DecidableEq

/-- Loop state of `OpenAIToAnthropic` (`openBlocks` is the set of opened
indices, `toolIndexByID` the tool-call id → block index map). -/
structure OAState where
  nextIndex : Nat := 0
  openBlocks : List Nat := []
  toolIndexByID : List (String × Nat) := []
  finishReason : String := ""
deriving Repr, DecidableEq

/-- `reasoning_content` handling of one OpenAI delta. -/
def oaReasoningStep (st : OAState) (d : ODelta) : OAState × List AEvent :=
  match d.reasoning with
  | some r =>
    if r ≠ "" then
      let p :=
        if ¬ st.openBlocks.contains 0 then
          ({ st with
              openBlocks := 0 :: st.openBlocks
              nextIndex := if st.nextIndex ≤ 0 then 1 else st.nextIndex },
           [AEvent.contentBlockStart 0 CBKind.thinkingCB])
        else (st, ([] : List AEvent))
      (p.1, p.2 ++ [AEvent.contentBlockDelta 0 (DKind.thinkingD r)])
    else (st, [])
  | none => (st, [])

/-- `content` handling of one OpenAI delta (index 1 when a thinking block
occupies index 0, else index 0). -/
def oaContentStep (st : OAState) (d : ODelta) : OAState × List AEvent :=
  match d.content with
  | some t =>
    if t ≠ "" then
      let idx := if st.openBlocks.contains 0 then 1 else 0
      let p :=
        if ¬ st.openBlocks.contains idx then
          ({ st with
              openBlocks := idx :: st.openBlocks
              nextIndex := if st.nextIndex ≤ idx then idx + 1 else st.nextIndex },
           [AEvent.contentBlockStart idx CBKind.textCB])
        else (st, ([] : List AEvent))
      (p.1, p.2 ++ [AEvent.contentBlockDelta idx (DKind.textD t)])
    else (st, [])
  | none => (st, [])

/-- One `tool_calls` element: skip blank ids, open a new `tool_use` block for
a fresh id, then forward non-empty argument fragments. -/
def oaToolCallStep (st : OAState) (tc : OTCDelta) : OAState × List AEvent :=
  if goTrim tc.id = "" then (st, [])
  else
    let p :=
      match List.lookup tc.id st.toolIndexByID with
      | some idx => (st, idx, ([] : List AEvent))
      | none =>
        ({ st with
            nextIndex := st.nextIndex + 1
            toolIndexByID := (tc.id, st.nextIndex) :: st.toolIndexByID
            openBlocks := st.nextIndex :: st.openBlocks },
         st.nextIndex,
         [AEvent.contentBlockStart st.nextIndex (CBKind.toolUseCB tc.id tc.name)])
    if tc.args ≠ "" then
      (p.1, p.2.2 ++ [AEvent.contentBlockDelta p.2.1 (DKind.inputJsonD tc.args)])
    else (p.1, p.2.2)

/-- `tool_calls` handling of one OpenAI delta. -/
def oaToolCalls (st : OAState) (d : ODelta) : OAState × List AEvent :=
  match d.toolCalls with
  | some tcs =>
    if tcs ≠ [] then
      tcs.foldl
        (fun acc tc =>
          let r := oaToolCallStep acc.1 tc
          (r.1, acc.2 ++ r.2))
        (st, ([] : List AEvent))
    else (st, [])
  | none => (st, [])

/-- Full delta handling (reasoning, then content, then tool calls). -/
def oaProcessDelta (st : OAState) (d : ODelta) : OAState × List AEvent :=
  let r1 := oaReasoningStep st d
  let r2 := oaContentStep r1.1 d
  let r3 := oaToolCalls r2.1 d
  (r3.1, r1.2 ++ r2.2 ++ r3.2)

/-- One loop iteration of `OpenAIToAnthropic`; the `Bool` is the loop break
(`[DONE]` or a non-empty `finish_reason`). An unmarshalable payload is
skipped with `continue`. -/
def oaStep (st : OAState) (b : OInBlock) : OAState × List AEvent × Bool :=
  match b with
  | .emptyData => (st, [], false)
  | .done => (st, [], true)
  | .malformed => (st, [], false)
  | .chunk choices =>
    match choices with
    | [] => (st, [], false)
    | c0 :: _ =>
      let p :=
        match c0.delta with
        | some d => oaProcessDelta st d
        | none => (st, [])
      match c0.finishReason with
      | some fr =>
        if fr ≠ "" then ({ p.1 with finishReason := fr }, p.2, true)
        else (p.1, p.2, false)
      | none => (p.1, p.2, false)

/-- The block-reading loop of `OpenAIToAnthropic`. -/
def oaLoop : OAState → List OInBlock → OAState × List AEvent
  | st, [] => (st, [])
  | st, b :: bs =>
    let r := oaStep st b
    if r.2.2 then (r.1, r.2.1)
    else
      let rest := oaLoop r.1 bs
      (rest.1, r.2.1 ++ rest.2)

/-- The OpenAI → Anthropic finish-reason map at stream end. -/
def mapOpenAIFinishToAnthStop (fr : String) : String :=
  match goTrim fr with
  | "tool_calls" => "tool_use"
  | "length" => "max_tokens"
  | "stop" => "end_turn"
  | "" => "end_turn"
  | _ => "end_turn"

/-- `streamconv.OpenAIToAnthropic` as the list of emitted Anthropic events:
`message_start`, the translated events, `content_block_stop` for every open
index in ascending order, `message_delta` with the mapped stop reason, then
`message_stop`. -/
def openAIToAnthropicStream (blocks : List OInBlock) : List AEvent :=
  let r := oaLoop {} blocks
  AEvent.messageStart :: r.2
    ++ ((List.range r.1.nextIndex).filter (fun i => r.1.openBlocks.contains i)).map
        AEvent.contentBlockStop
    ++ [AEvent.messageDelta (mapOpenAIFinishToAnthStop r.1.finishReason), AEvent.messageStop]

/-- The `content_block` payload of an inbound Anthropic `content_block_start`. -/
inductive AInCB where
  | thinking : AInCB
  | toolUse (id name : String) : AInCB
  | otherCB (typ : String) : AInCB
deriving Repr, DecidableEq

/-- The `delta` payload of an inbound Anthropic `content_block_delta`. -/
inductive AInDelta where
  | thinkingD (s : String) : AInDelta
  | textD (s : String) : AInDelta
  | inputJsonD (partialJson : String) : AInDelta
  | otherD (typ : String) : AInDelta
deriving Repr, DecidableEq

/-- A decoded inbound Anthropic stream event. -/
inductive AInEvent where
  | contentBlockStart (index : Int) (cb : Option AInCB) : AInEvent
  | contentBlockDelta (index : Int) (d : Option AInDelta) : AInEvent
  | messageDelta (stopReason : Option String) : AInEvent
  | messageStop : AInEvent
  | otherEvent (typ : String) : AInEvent
deriving Repr, DecidableEq

/-- One SSE block of an inbound Anthropic stream. -/
inductive AInBlock where
  | emptyData : AInBlock
  | malformed : AInBlock
  | ev (e : AInEvent) : AInBlock
deriving Repr, DecidableEq

/-- An emitted OpenAI chunk of `AnthropicToOpenAI`. -/
inductive OOut where
  | roleChunk : OOut
  | reasoningChunk (s : String) : OOut
  | contentChunk (s : String) : OOut
  | toolCallStart (index : Int) (id name : String) : OOut
  | toolCallArgs (index : Int) (id partialJson : String) : OOut
  | finishChunk (finishReason : String) : OOut
  | doneMarker : OOut
deriving Repr, DecidableEq

/-- Loop state of `AnthropicToOpenAI`. -/
structure AOState where
  sentRole : Bool := false
  finishReason : String := "stop"
  toolIDsByIndex : List (Int × String) := []
deriving Repr, DecidableEq

/-- The event-type switch of `AnthropicToOpenAI` (Go `break` inside the
`message_stop` case only leaves the switch, so it is a no-op). -/
def aoHandle (st : AOState) (e : AInEvent) : AOState × List OOut :=
  match e with
  | .contentBlockStart idx cb =>
    match cb with
    | none => (st, [])
    | some .thinking => (st, [OOut.reasoningChunk ""])
    | some (.toolUse id name) =>
      if goTrim id = "" ∨ goTrim name = "" then (st, [])
      else ({ st with toolIDsByIndex := (idx, id) :: st.toolIDsByIndex },
            [OOut.toolCallStart idx id name])
    | some (.otherCB _) => (st, [])
  | .contentBlockDelta idx d =>
    match d with
    | none => (st, [])
    | some (.thinkingD s) => if s ≠ "" then (st, [OOut.reasoningChunk s]) else (st, [])
    | some (.textD s) => if s ≠ "" then (st, [OOut.contentChunk s]) else (st, [])
    | some (.inputJsonD p) =>
      let toolID := (List.lookup idx st.toolIDsByIndex).getD ""
      if goTrim toolID = "" ∨ p = "" then (st, [])
      else (st, [OOut.toolCallArgs idx toolID p])
    | some (.otherD _) => (st, [])
  | .messageDelta sr =>
    match sr with
    | some s =>
      if s ≠ "" then
        ({ st with finishReason :=
            match s with
            | "end_turn" => "stop"
            | "stop_sequence" => "stop"
            | "max_tokens" => "length"
            | "tool_use" => "tool_calls"
            | _ => "stop" }, [])
      else (st, [])
    | none => (st, [])
  | .messageStop => (st, [])
  | .otherEvent _ => (st, [])

/-- One loop iteration of `AnthropicToOpenAI`: empty or unmarshalable data is
skipped with `continue` (before the role chunk is considered); the first
decoded event triggers the initial `delta.role = "assistant"` chunk. -/
def aoStep (st : AOState) (b : AInBlock) : AOState × List OOut :=
  match b with
  | .emptyData => (st, [])
  | .malformed => (st, [])
  | .ev e =>
    let p :=
      if st.sentRole then (st, ([] : List OOut))
      else ({ st with sentRole := true }, [OOut.roleChunk])
    let r := aoHandle p.1 e
    (r.1, p.2 ++ r.2)

/-- The block-reading loop of `AnthropicToOpenAI` (it only ends at EOF). -/
def aoLoop : AOState → List AInBlock → AOState × List OOut
  | st, [] => (st, [])
  | st, b :: bs =>
    let r := aoStep st b
    let rest := aoLoop r.1 bs
    (rest.1, r.2 ++ rest.2)

/-- `streamconv.AnthropicToOpenAI` as the list of emitted OpenAI chunks:
the translated chunks, the final `finish_reason` chunk, then `data: [DONE]`. -/
def anthropicToOpenAIStream (blocks : List AInBlock) : List OOut :=
  let r := aoLoop {} blocks
  r.2 ++ [OOut.finishChunk r.1.finishReason, OOut.doneMarker]

/-- OpenAI `function` payload of a response tool call. -/
structure RespFunction where
  name : String
  arguments : String
deriving Repr, DecidableEq

/-- OpenAI response tool call. -/
structure RespToolCall where
  id : String
  typ : String
  function : RespFunction
deriving Repr, DecidableEq

/-- OpenAI chat response message (content is a decoded JSON value: a string,
null, or any other shape). -/
structure OChatMessage where
  role : String
  content : Jx
  toolCalls : List RespToolCall
deriving Repr

/-- OpenAI chat response choice. -/
structure OChatChoice where
  message : OChatMessage
  finishReason : String
deriving Repr

/-- OpenAI chat response usage block. -/
structure OChatUsage where
  promptTokens : Int
  completionTokens : Int
  totalTokens : Int
deriving Repr, DecidableEq

/-- OpenAI chat completion response. -/
structure OChatResp where
  model : String
  choices : List OChatChoice
  usage : Option OChatUsage
deriving Repr

/-- One Anthropic response content block: a text block, or a `tool_use`
block whose `input` is the parsed `arguments` string. -/
inductive RContent where
  | textB (s : String) : RContent
  | toolUseB (id name arguments : String) : RContent
deriving Repr, DecidableEq

/-- Anthropic response usage block. -/
structure AnthUsage where
  inputTokens : Int := 0
  outputTokens : Int := 0
deriving Repr, DecidableEq

/-- Anthropic message response. -/
structure AnthResp where
  role : String
  model : String
  content : List RContent
  stopReason : String
  usage : AnthUsage
deriving Repr

/-- `mapAnthropicStopReasonToOpenAIFinishReason`. -/
def mapAnthropicStopReasonToOpenAIFinishReason (sr : String) : String :=
  match goTrim sr with
  | "" => "stop"
  | "end_turn" => "stop"
  | "max_tokens" => "length"
  | "stop_sequence" => "stop"
  | "tool_use" => "tool_calls"
  | _ => "stop"

/-- `mapOpenAIFinishReasonToAnthropicStopReason`: any present tool call
forces `tool_use`. -/
def mapOpenAIFinishReasonToAnthropicStopReason (fr : String) (hasToolCalls : Bool) : String :=
  if hasToolCalls then "tool_use"
  else
    match goTrim fr with
    | "tool_calls" => "tool_use"
    | "length" => "max_tokens"
    | "stop" => "end_turn"
    | "" => "end_turn"
    | _ => "end_turn"

/-- `convert.OpenAIResponseToAnthropic`. -/
def OpenAIResponseToAnthropic (or1 : OChatResp) (model : String) : AnthResp :=
  let p :=
    match or1.choices with
    | [] => ("", ([] : List RContent), "")
    | c :: _ =>
      let text :=
        match c.message.content with
        | .str s => s
        | .null => ""
        | v => Jx.enc v
      let toolBlocks := c.message.toolCalls.map fun (tc : RespToolCall) =>
        RContent.toolUseB tc.id tc.function.name tc.function.arguments
      (text, toolBlocks, c.finishReason)
  let usage : AnthUsage :=
    match or1.usage with
    | some u => { inputTokens := u.promptTokens, outputTokens := u.completionTokens }
    | none => {}
  { role := "assistant"
    model := model
    content := (if goTrim p.1 ≠ "" then [RContent.textB p.1] else []) ++ p.2.1
    stopReason := mapOpenAIFinishReasonToAnthropicStopReason p.2.2 (!p.2.1.isEmpty)
    usage := usage }

/-- Concrete response choice used to witness the stop-reason claims. -/
def c7WitnessChoice : OChatChoice :=
  ⟨⟨"assistant", Jx.null, [⟨"call_1", "function", ⟨"get_weather", ""⟩⟩]⟩, "stop"⟩

/-- Concrete OpenAI response used to witness the stop-reason claims. -/
def c7WitnessResp : OChatResp :=
  ⟨"gpt-4", [c7WitnessChoice], none⟩

/-- Conversion errors (`ErrUnsupportedMessageShape`,
`ErrUnsupportedContentPart`, `ErrInvalidToolArguments`). -/
inductive CErr where
  | shape : CErr
  | contentPart : CErr
  | toolArgs : CErr
deriving Repr, DecidableEq

/-- `strings.HasPrefix` (list model, kernel-reducible). -/
def strStarts (s pre : String) : Bool :=
  pre.data.isPrefixOf s.data

/-- `strings.HasSuffix` (list model). -/
def strEnds (s suf : String) : Bool :=
  suf.data.isSuffixOf s.data

/-- `strings.TrimPrefix`. -/
def goTrimPre (s pre : String) : String :=
  if strStarts s pre then String.mk (s.data.drop pre.data.length) else s

/-- `strings.TrimSuffix`. -/
def goTrimSuf (s suf : String) : String :=
  if strEnds s suf then String.mk (s.data.take (s.data.length - suf.data.length)) else s

/-- `strings.Join(parts, "\n")`. -/
def joinWithNl : List String → String
  | [] => ""
  | [s] => s
  | s :: t :: rest => s ++ "\n" ++ joinWithNl (t :: rest)

/-- One element of an Anthropic `tool_result` content-block list: a
`{type: "text", text: s}` object or any other JSON value. -/
inductive TRBlock where
  | text (s : String) : TRBlock
  | other (v : Jx) : TRBlock
deriving Repr

/-- Anthropic `tool_result.content`: absent, a string, a block list, or any
other JSON value. -/
inductive TRC where
  | nil : TRC
  | txt (s : String) : TRC
  | blocks (bs : List TRBlock) : TRC
  | other (v : Jx) : TRC
deriving Repr

/-- `anthropicToolResultContentToText`: concatenate the text of `text`
blocks; non-list, non-string content yields `""`. -/
def anthropicToolResultContentToText : TRC → String
  | .nil => ""
  | .txt s => s
  | .blocks bs =>
    String.join (bs.map fun b =>
      match b with
      | .text s => s
      | .other _ => "")
  | .other _ => ""

/-- The JSON value a `TRBlock` denotes (for the marshal fallback). -/
def TRBlock.toJx : TRBlock → Jx
  | .text s => Jx.obj [("type", Jx.str "text"), ("text", Jx.str s)]
  | .other v => v

/-- The JSON value a `TRC` denotes (for the marshal fallback). -/
def TRC.toJx : TRC → Jx
  | .nil => Jx.null
  | .txt s => Jx.str s
  | .blocks bs => Jx.arr (bs.map TRBlock.toJx)
  | .other v => v

/-- `stringifyJSONish`: nil → `""`, string → itself, otherwise marshal. -/
def stringifyJSONish (v : Jx) : String :=
  match v with
  | .null => ""
  | .str s => s
  | v => v.enc

/-- `stringifyJSONish` applied to a `tool_result` content value. -/
def stringifyTRC (t : TRC) : String :=
  stringifyJSONish t.toJx

/-- Anthropic image `source`. -/
inductive ImgSrc where
  | base64 (mediaType data : String) : ImgSrc
  | url (u : String) : ImgSrc
  | otherSrc (st : String) : ImgSrc
deriving Repr

/-- One Anthropic request content block (shapes the converter distinguishes;
`image none` models a block with a missing `source`). -/
inductive ABlock where
  | text (t : String) : ABlock
  | thinking (t : String) : ABlock
  | toolUse (id name : String) (input : Jx) : ABlock
  | toolResult (toolUseId : String) (content : TRC) (isError : Bool) : ABlock
  | image (source : Option ImgSrc) : ABlock
  | other (typ : String) : ABlock
deriving Repr

/-- Anthropic `message.content`: absent, a string, a block list, or an
unsupported shape. -/
inductive AContent where
  | nil : AContent
  | str (s : String) : AContent
  | blocks (bs : List ABlock) : AContent
  | bad : AContent
deriving Repr

/-- One Anthropic request message. -/
structure AMessage where
  role : String
  content : AContent
deriving Repr

/-- Anthropic request `system`: a string or any other JSON value. -/
inductive SysVal where
  | str (s : String) : SysVal
  | other (v : Jx) : SysVal
deriving Repr

/-- Anthropic tool definition (`input_schema` is the decoded JSON or absent). -/
structure AToolDef where
  name : String
  description : String
  inputSchema : Option Jx
deriving Repr

/-- Anthropic `tool_choice` (decoded; `otherChoice` is an unsupported type). -/
inductive ATC where
  | auto : ATC
  | noneChoice : ATC
  | anyChoice : ATC
  | tool (name : String) : ATC
  | otherChoice (typ : String) : ATC
deriving Repr

/-- Anthropic `MessageCreateRequest`. -/
structure AnthReq where
  model : String
  maxTokens : Int
  messages : List AMessage
  system : Option SysVal := none
  temperature : Option ℚ := none
  topP : Option ℚ := none
  stream : Bool := false
  tools : List AToolDef := []
  toolChoice : Option ATC := none
deriving Repr

/-- An OpenAI tool-call `arguments` string: whitespace-blank, the marshal
image of a JSON value, or non-blank unparseable text. -/
inductive OArgs where
  | blank : OArgs
  | enc (v : Jx) : OArgs
  | bad (s : String) : OArgs
deriving Repr

/-- One OpenAI request tool call. -/
structure OToolCall where
  id : String
  typ : String
  name : String
  args : OArgs
deriving Repr

/-- One OpenAI content part. -/
inductive OPart where
  | text (t : String) : OPart
  | imageUrl (u : String) : OPart
  | other (typ : String) : OPart
deriving Repr

/-- OpenAI message `content`. -/
inductive OContent where
  | nil : OContent
  | str (s : String) : OContent
  | parts (ps : List OPart) : OContent
  | other (v : Jx) : OContent
deriving Repr

/-- One OpenAI chat message (maps carried by the converter). -/
structure OMsg where
  role : String
  content : OContent
  reasoning : Option String := none
  toolCalls : Option (List OToolCall) := none
  toolCallID : Option String := none
deriving Repr

/-- OpenAI tool definition (forward conversion always emits `type:
"function"` and a `parameters` value). -/
structure OToolDef where
  name : String
  description : String
  parameters : Jx
deriving Repr

/-- OpenAI `tool_choice` as the converter emits and accepts it. -/
inductive OTCh where
  | auto : OTCh
  | noneChoice : OTCh
  | required : OTCh
  | fn (name : String) : OTCh
deriving Repr

/-- OpenAI `ChatCompletionsRequest`. -/
structure OReq where
  model : String
  messages : List OMsg
  maxTokens : Option Int := none
  temperature : Option ℚ := none
  topP : Option ℚ := none
  stream : Bool := false
  tools : Option (List OToolDef) := none
  toolChoice : Option OTCh := none
deriving Repr

/-- The system text of a request (`ar.System`: string verbatim, nil empty,
any other value marshalled). -/
def sysTextOf : Option SysVal → String
  | none => ""
  | some (.str s) => s
  | some (.other v) => v.enc

/-- `anthropicContentToBlocks`. -/
def anthropicContentToBlocks : AContent → Except CErr (List ABlock)
  | .nil => .ok []
  | .str s => .ok (if goTrim s = "" then [] else [ABlock.text s])
  | .blocks bs => .ok bs
  | .bad => .error .shape

/-- `anthropicImageBlockToOpenAIContentPart`. -/
def anthropicImageBlockToOpenAIContentPart : Option ImgSrc → Except CErr OPart
  | none => .error .contentPart
  | some (.base64 mt dt) =>
    if goTrim mt = "" ∨ goTrim dt = "" then .error .contentPart
    else .ok (OPart.imageUrl ("data:" ++ goTrim mt ++ ";base64," ++ goTrim dt))
  | some (.url u) =>
    if goTrim u = "" then .error .contentPart
    else if strStarts (goTrim u) "data:image/" || strStarts (goTrim u) "https://" then
      .ok (OPart.imageUrl (goTrim u))
    else .error .contentPart
  | some (.otherSrc _) => .error .contentPart

/-- The per-message accumulators of `anthropicMessageToOpenAIMessages`. -/
structure FwdAcc where
  textParts : List String := []
  reasoningParts : List String := []
  contentParts : List OPart := []
  hasNonText : Bool := false
  toolCalls : List OToolCall := []
  toolMessages : List OMsg := []
deriving Repr

/-- Componentwise concatenation of two accumulator states. -/
def FwdAcc.append (a b : FwdAcc) : FwdAcc :=
  ⟨a.textParts ++ b.textParts, a.reasoningParts ++ b.reasoningParts,
   a.contentParts ++ b.contentParts, a.hasNonText || b.hasNonText,
   a.toolCalls ++ b.toolCalls, a.toolMessages ++ b.toolMessages⟩

/-- The contribution of one block to the forward accumulators (the loop body
of `anthropicMessageToOpenAIMessages`). -/
def fwdBlockAcc : ABlock → Except CErr FwdAcc
  | .text t =>
    .ok (if t ≠ "" then { textParts := [t], contentParts := [OPart.text t] } else {})
  | .thinking t =>
    .ok (if t ≠ "" then { reasoningParts := [t] } else {})
  | .toolUse id name input =>
    if goTrim id = "" ∨ goTrim name = "" then .error .shape
    else .ok { toolCalls := [⟨id, "function", name, OArgs.enc input⟩] }
  | .toolResult tuid content _ =>
    if goTrim tuid = "" then .error .shape
    else
      let c0 := anthropicToolResultContentToText content
      let c := if goTrim c0 = "" then stringifyTRC content else c0
      .ok { toolMessages := [{ role := "tool", content := OContent.str c,
                               toolCallID := some tuid }] }
  | .image src =>
    match anthropicImageBlockToOpenAIContentPart src with
    | .error e => .error e
    | .ok part => .ok { contentParts := [part], hasNonText := true }
  | .other _ => .error .contentPart

/-- The forward block loop, left to right. -/
def collectBlocks : List ABlock → Except CErr FwdAcc
  | [] => .ok {}
  | b :: bs =>
    match fwdBlockAcc b with
    | .error e => .error e
    | .ok a =>
      match collectBlocks bs with
      | .error e => .error e
      | .ok rest => .ok (a.append rest)

/-- `anthropicMessageToOpenAIMessages`. -/
def anthropicMessageToOpenAIMessages (m : AMessage) : Except CErr (List OMsg) :=
  let role := goTrim m.role
  if role = "" then .error .shape
  else
    match anthropicContentToBlocks m.content with
    | .error e => .error e
    | .ok blocks =>
      match collectBlocks blocks with
      | .error e => .error e
      | .ok acc =>
        let content :=
          if acc.hasNonText then OContent.parts acc.contentParts
          else OContent.str (String.join acc.textParts)
        if role = "user" then
          .ok ({ role := "user", content := content } :: acc.toolMessages)
        else if role = "assistant" then
          .ok ({ role := "assistant", content := content,
                 reasoning :=
                   if !acc.reasoningParts.isEmpty then some (String.join acc.reasoningParts)
                   else none,
                 toolCalls :=
                   if !acc.toolCalls.isEmpty then some acc.toolCalls else none } ::
               acc.toolMessages)
        else .error .shape

/-- The message loop of `AnthropicToOpenAIChatRequest`. -/
def fwdMessages : List AMessage → Except CErr (List (List OMsg))
  | [] => .ok []
  | m :: ms =>
    match anthropicMessageToOpenAIMessages m with
    | .error e => .error e
    | .ok msgs =>
      match fwdMessages ms with
      | .error e => .error e
      | .ok rest => .ok (msgs :: rest)

/-- `anthropicToolsToOpenAIToolsRaw` (empty list → absent; no schema → the
default `{"type":"object","properties":{}}`). -/
def fwdTools : List AToolDef → Except CErr (Option (List OToolDef))
  | [] => .ok none
  | tools => go tools |>.map some
where
  /-- Per-definition loop of the tool conversion. -/
  go : List AToolDef → Except CErr (List OToolDef)
    | [] => .ok []
    | t :: ts =>
      if goTrim t.name = "" then .error .shape
      else
        let params :=
          match t.inputSchema with
          | some v => v
          | none => Jx.obj [("type", Jx.str "object"), ("properties", Jx.obj [])]
        match go ts with
        | .error e => .error e
        | .ok rest => .ok (⟨t.name, t.description, params⟩ :: rest)

/-- `anthropicToolChoiceToOpenAIToolChoiceRaw`. -/
def fwdToolChoice : Option ATC → Except CErr (Option OTCh)
  | none => .ok none
  | some .auto => .ok (some .auto)
  | some .noneChoice => .ok (some .noneChoice)
  | some .anyChoice => .ok (some .required)
  | some (.tool n) => if goTrim n = "" then .error .shape else .ok (some (.fn n))
  | some (.otherChoice _) => .error .shape

/-- `convert.AnthropicToOpenAIChatRequest`. -/
def AnthropicToOpenAIChatRequest (r : AnthReq) : Except CErr OReq :=
  let sysText := sysTextOf r.system
  match fwdMessages r.messages with
  | .error e => .error e
  | .ok msgLists =>
    match fwdTools r.tools with
    | .error e => .error e
    | .ok tools =>
      match fwdToolChoice r.toolChoice with
      | .error e => .error e
      | .ok tc =>
        .ok { model := r.model
              messages :=
                (if goTrim sysText ≠ "" then
                  [{ role := "system", content := OContent.str sysText }]
                 else []) ++ msgLists.flatten
              maxTokens := some r.maxTokens
              temperature := r.temperature
              topP := r.topP
              stream := r.stream
              tools := tools
              toolChoice := tc }

/-- `parseDataImageURL`: accept `data:image/…;base64,…` URLs, returning the
media type and payload (split at the first comma, as `strings.SplitN`). -/
def parseDataImageURL (u0 : String) : Option (String × String) :=
  let u := goTrim u0
  if ¬ strStarts u "data:image/" then none
  else
    let sp := u.data.span fun ch => ¬ ch = ','
    match sp.2 with
    | [] => none
    | _ :: dataChars =>
      let meta := String.mk sp.1
      let dataPart := String.mk dataChars
      if ¬ strContains meta ";base64" then none
      else
        let mt := goTrim (goTrimSuf (goTrimPre meta "data:") ";base64")
        if mt = "" ∨ dataPart = "" then none
        else some (mt, dataPart)

/-- The JSON value an `OPart` denotes (for `stringifyJSONish`). -/
def OPart.toJx : OPart → Jx
  | .text t => Jx.obj [("type", Jx.str "text"), ("text", Jx.str t)]
  | .imageUrl u => Jx.obj [("type", Jx.str "image_url"),
      ("image_url", Jx.obj [("url", Jx.str u)])]
  | .other typ => Jx.obj [("type", Jx.str typ)]

/-- `stringifyJSONish` applied to a message `content` value. -/
def stringifyOContent : OContent → String
  | .nil => ""
  | .str s => s
  | .parts ps => (Jx.arr (ps.map OPart.toJx)).enc
  | .other v => stringifyJSONish v

/-- The content-part loop of `openAIMessageContentToAnthropicBlocks`. -/
def oPartsToABlocks : List OPart → Except CErr (List ABlock)
  | [] => .ok []
  | p :: ps =>
    let hd : Except CErr (List ABlock) :=
      match p with
      | .text t => .ok (if t = "" then [] else [ABlock.text t])
      | .imageUrl u =>
        if goTrim u = "" then .error .contentPart
        else
          match parseDataImageURL u with
          | some md => .ok [ABlock.image (some (ImgSrc.base64 md.1 md.2))]
          | none =>
            if strStarts (goTrim u) "https://" then .ok [ABlock.image (some (ImgSrc.url u))]
            else .error .contentPart
      | .other _ => .error .contentPart
    match hd with
    | .error e => .error e
    | .ok hd2 =>
      match oPartsToABlocks ps with
      | .error e => .error e
      | .ok rest => .ok (hd2 ++ rest)

/-- `openAIMessageContentToAnthropicBlocks`. -/
def openAIMessageContentToAnthropicBlocks : OContent → Except CErr (List ABlock)
  | .nil => .ok []
  | .str s => .ok (if goTrim s = "" then [] else [ABlock.text s])
  | .parts ps => oPartsToABlocks ps
  | .other _ => .error .contentPart

/-- `openAIToolCallsToAnthropicBlocks` (blank arguments become the empty
object; unparseable arguments are `ErrInvalidToolArguments`). -/
def openAIToolCallsToAnthropicBlocks : Option (List OToolCall) → Except CErr (List ABlock)
  | none => .ok []
  | some tcs => go tcs
where
  /-- Per-element loop of the tool-call conversion. -/
  go : List OToolCall → Except CErr (List ABlock)
    | [] => .ok []
    | tc :: tcs =>
      if goTrim tc.id = "" ∨ goTrim tc.name = "" then .error .shape
      else if ¬ tc.typ = "" ∧ ¬ tc.typ = "function" then .error .shape
      else
        let hd : Except CErr ABlock :=
          match tc.args with
          | .blank => .ok (ABlock.toolUse tc.id tc.name (Jx.obj []))
          | .enc v => .ok (ABlock.toolUse tc.id tc.name v)
          | .bad _ => .error .toolArgs
        match hd with
        | .error e => .error e
        | .ok b =>
          match go tcs with
          | .error e => .error e
          | .ok rest => .ok (b :: rest)

/-- `openAIToolsToAnthropicTools` (the forward pass always emits
`type: "function"`, so the reverse type check is not modelled). -/
def openAIToolsToAnthropicTools : Option (List OToolDef) → Except CErr (List AToolDef)
  | none => .ok []
  | some ts => go ts
where
  /-- Per-definition loop of the reverse tool conversion. -/
  go : List OToolDef → Except CErr (List AToolDef)
    | [] => .ok []
    | t :: ts =>
      if goTrim t.name = "" then .error .contentPart
      else
        match go ts with
        | .error e => .error e
        | .ok rest => .ok (⟨t.name, t.description, some t.parameters⟩ :: rest)

/-- `openAIToolChoiceToAnthropicToolChoice`. -/
def revToolChoice : Option OTCh → Except CErr (Option ATC)
  | none => .ok none
  | some .auto => .ok (some .auto)
  | some .noneChoice => .ok (some .noneChoice)
  | some .required => .ok (some .anyChoice)
  | some (.fn n) => if goTrim n = "" then .error .shape else .ok (some (.tool n))

/-- The message loop of `OpenAIToAnthropicMessageRequest`: returns the
collected system parts and the converted messages. -/
def revMsgs : List OMsg → Except CErr (List String × List AMessage)
  | [] => .ok ([], [])
  | m :: ms =>
    let role := goTrim m.role
    if role = "" then .error .shape
    else if role = "system" then
      match revMsgs ms with
      | .error e => .error e
      | .ok r => .ok (stringifyOContent m.content :: r.1, r.2)
    else if role = "user" ∨ role = "assistant" then
      match openAIMessageContentToAnthropicBlocks m.content with
      | .error e => .error e
      | .ok cbs =>
        match openAIToolCallsToAnthropicBlocks m.toolCalls with
        | .error e => .error e
        | .ok tubs =>
          match revMsgs ms with
          | .error e => .error e
          | .ok r => .ok (r.1, ⟨role, AContent.blocks (cbs ++ tubs)⟩ :: r.2)
    else if role = "tool" then
      let tuid := goTrim (m.toolCallID.getD "")
      if tuid = "" then .error .shape
      else
        match revMsgs ms with
        | .error e => .error e
        | .ok r =>
          .ok (r.1, ⟨"user", AContent.blocks
              [ABlock.toolResult tuid (TRC.txt (stringifyOContent m.content)) false]⟩ :: r.2)
    else .error .shape

/-- `convert.OpenAIToAnthropicMessageRequest`. -/
def OpenAIToAnthropicMessageRequest (o : OReq) : Except CErr AnthReq :=
  match revMsgs o.messages with
  | .error e => .error e
  | .ok r =>
    let maxTokens : Int :=
      match o.maxTokens with
      | some mt => if 0 < mt then mt else 1024
      | none => 1024
    match openAIToolsToAnthropicTools o.tools with
    | .error e => .error e
    | .ok tools =>
      match revToolChoice o.toolChoice with
      | .error e => .error e
      | .ok tc =>
        let sys := goTrim (joinWithNl r.1)
        .ok { model := o.model
              maxTokens := maxTokens
              messages := r.2
              system := if sys ≠ "" then some (SysVal.str sys) else none
              temperature := o.temperature
              topP := o.topP
              stream := o.stream
              tools := tools
              toolChoice := tc }

/-- The ordered `(id, name)` pairs of the `tool_use` blocks of a block list. -/
def blockToolUsePairs (bs : List ABlock) : List (String × String) :=
  bs.filterMap fun b =>
    match b with
    | .toolUse id name _ => some (id, name)
    | _ => none

/-- The ordered `tool_use_id`s of the `tool_result` blocks of a block list. -/
def blockToolResultIds (bs : List ABlock) : List String :=
  bs.filterMap fun b =>
    match b with
    | .toolResult tuid _ _ => some tuid
    | _ => none

/-- The `tool_use` `(id, name)` pairs of one message. -/
def msgToolUsePairs (m : AMessage) : List (String × String) :=
  match m.content with
  | .blocks bs => blockToolUsePairs bs
  | _ => []

/-- The `tool_result` ids of one message. -/
def msgToolResultIds (m : AMessage) : List String :=
  match m.content with
  | .blocks bs => blockToolResultIds bs
  | _ => []

/-- The `tool_use` `(id, name)` pairs of a whole request, in order. -/
def reqToolUsePairs (r : AnthReq) : List (String × String) :=
  (r.messages.map msgToolUsePairs).flatten

/-- The `tool_result` ids of a whole request, in order. -/
def reqToolResultIds (r : AnthReq) : List String :=
  (r.messages.map msgToolResultIds).flatten

/-- An image block whose forward conversion parses back on the reverse pass:
the data URL built from a base64 source parses as a data image URL, and a
url source is (after trimming) a parseable data URL or an `https://` URL. -/
def goodImage : ABlock → Prop
  | ABlock.image (some (ImgSrc.base64 mt dt)) =>
    ¬ parseDataImageURL ("data:" ++ goTrim mt ++ ";base64," ++ goTrim dt) = none
  | ABlock.image (some (ImgSrc.url u)) =>
    ¬ parseDataImageURL (goTrim u) = none ∨ strStarts (goTrim u) "https://" = true
  | _ => True

/-- All image blocks of a message are reverse-parseable. -/
def msgGoodImages (m : AMessage) : Prop :=
  match m.content with
  | .blocks bs => ∀ b ∈ bs, goodImage b
  | _ => True

/-- The character-list body of `goTrim`. -/
def trimList (l : List Char) : List Char :=
  ((l.dropWhile isSpaceChar).reverse.dropWhile isSpaceChar).reverse

/-- A content part the reverse pass accepts, producing blocks with no
`tool_use` and no `tool_result`. -/
def partOk : OPart → Prop
  | .text _ => True
  | .imageUrl u => ¬ parseDataImageURL u = none
      ∨ (¬ goTrim u = "" ∧ strStarts (goTrim u) "https://" = true)
  | .other _ => False

/-- The tool call a block contributes on the forward pass. -/
def fwdTCOf : ABlock → Option OToolCall
  | .toolUse id name input => some ⟨id, "function", name, OArgs.enc input⟩
  | _ => none

/-- The tool message a block contributes on the forward pass. -/
def fwdTMOf : ABlock → Option OMsg
  | .toolResult tuid content _ =>
    some { role := "tool"
           content := OContent.str
             (if goTrim (anthropicToolResultContentToText content) = "" then
                stringifyTRC content
              else anthropicToolResultContentToText content)
           toolCallID := some tuid }
  | _ => none

/-- Per-block success conditions implied by a successful forward pass. -/
def fwdBlockOk : ABlock → Prop
  | .toolUse id name _ => ¬ goTrim id = "" ∧ ¬ goTrim name = ""
  | .toolResult tuid _ _ => ¬ goTrim tuid = ""
  | .image src => ∃ p, anthropicImageBlockToOpenAIContentPart src = .ok p
  | .other _ => False
  | _ => True

/-- C6 counterexample input: a request with untrimmed system text and a user
message holding a `tool_result` block plus a text block. -/
def c6CReq : AnthReq :=
  { model := "m"
    maxTokens := 5
    messages := [⟨"user", AContent.blocks
      [ABlock.toolResult "t1" (TRC.txt "r") false, ABlock.text "hi"]⟩]
    system := some (SysVal.str " x") }

/-- The forward image of `c6CReq`. -/
def c6CFwd : OReq :=
  { model := "m"
    messages := [{ role := "system", content := OContent.str " x" },
                 { role := "user", content := OContent.str "hi" },
                 { role := "tool", content := OContent.str "r", toolCallID := some "t1" }]
    maxTokens := some 5 }

/-- The reverse image of `c6CFwd`. -/
def c6CRev : AnthReq :=
  { model := "m"
    maxTokens := 5
    messages := [⟨"user", AContent.blocks [ABlock.text "hi"]⟩,
                 ⟨"user", AContent.blocks [ABlock.toolResult "t1" (TRC.txt "r") false]⟩]
    system := some (SysVal.str "x") }

theorem endRequest_429_openUntil (st : CredState) (ok : Bool) (lat : ℚ) (now : Int) :
    (endRequest st ok 429 lat now).openUntil = some (now + backoff429 (st.failures + 1)) := by
  simp [endRequest]

theorem endRequest_429_failures (st : CredState) (ok : Bool) (lat : ℚ) (now : Int) :
    (endRequest st ok 429 lat now).failures = st.failures + 1 := by
  simp [endRequest]

theorem backoff429_eq (f : Nat) :
    backoff429 f = 1000 * min (5 * 2 ^ min f 6) 120 := by
  unfold backoff429
  rw [mul_min_of_nonneg _ _ (by norm_num : (0 : Int) ≤ 1000)]
  norm_num
  ring_nf

/-- C2. On every `EndRequest` with status 429 the credential first increments
`consecutive_failures` and then sets `open_until := now + min(5·2^min(failures,6) s, 2 min)`
(here in milliseconds); in particular after a third consecutive 429 the
circuit is open until `now + 40 s` and `IsOpen` is true throughout that
window. -/
theorem c2_endRequest_429_backoff :
    (∀ (st : CredState) (ok : Bool) (lat : ℚ) (now : Int),
      (endRequest st ok 429 lat now).openUntil
        = some (now + 1000 * min (5 * 2 ^ min (st.failures + 1) 6) 120))
    ∧ (∀ (st : CredState) (ok1 ok2 ok3 : Bool) (l1 l2 l3 : ℚ) (t1 t2 t3 : Int),
        st.failures = 0 →
        (endRequest (endRequest (endRequest st ok1 429 l1 t1) ok2 429 l2 t2) ok3 429 l3 t3).openUntil
          = some (t3 + 40000)
        ∧ ∀ t : Int, t < t3 + 40000 →
            isOpen (endRequest (endRequest (endRequest st ok1 429 l1 t1) ok2 429 l2 t2) ok3 429 l3 t3) t
              = true) := by
  constructor
  · intro st ok lat now
    rw [endRequest_429_openUntil, backoff429_eq]
  · intro st ok1 ok2 ok3 l1 l2 l3 t1 t2 t3 h0
    have h1 : (endRequest st ok1 429 l1 t1).failures = 1 := by
      rw [endRequest_429_failures, h0]
    have h2 : (endRequest (endRequest st ok1 429 l1 t1) ok2 429 l2 t2).failures = 2 := by
      rw [endRequest_429_failures, h1]
    have h3 :
        (endRequest (endRequest (endRequest st ok1 429 l1 t1) ok2 429 l2 t2) ok3 429 l3 t3).openUntil
          = some (t3 + 40000) := by
      rw [endRequest_429_openUntil, h2]
      norm_num [backoff429]
    refine ⟨h3, ?_⟩
    intro t ht
    simp [isOpen, h3, ht]

/-- Witness for `c2_endRequest_429_backoff` at a concrete credential state. -/
theorem c2_endRequest_429_backoff_witness :
    (endRequest (endRequest (endRequest {} true 429 5 0) true 429 5 1) true 429 5 2).openUntil
      = some (2 + 40000)
    ∧ isOpen (endRequest (endRequest (endRequest {} true 429 5 0) true 429 5 1) true 429 5 2) 2000
      = true := by
  have h := c2_endRequest_429_backoff.2 {} true true true 5 5 5 0 1 2 rfl
  exact ⟨h.1, h.2 2000 (by norm_num)⟩

/-! ## Credential scoring (`Router.credentialScore`) -/

/-- C8. The credential score equals
`weight · (successes+1)/(total+2) · 1/(1+failures) · 1/(1+ewma/2500) · 1/(1+inflight)`
(for the clamped weight), and for fixed successes/total it is monotone:
lowering `consecutive_failures`, `ewma_latency` or `inflight` never lowers
the score. -/
theorem c8_score_formula_and_monotone :
    (∀ (w : Int) (st : CredState), 0 ≤ st.ewmaLatency →
      credentialScore w (some st)
        = (if w ≤ 0 then (1 : ℚ) else (w : ℚ))
            * (((st.successes : ℚ) + 1) / ((st.total : ℚ) + 2))
            * (1 / (1 + (st.failures : ℚ)))
            * (1 / (1 + st.ewmaLatency / 2500))
            * (1 / (1 + (st.inflight : ℚ))))
    ∧ (∀ (w : Int) (st st' : CredState),
        0 ≤ st'.ewmaLatency → st'.ewmaLatency ≤ st.ewmaLatency →
        st'.failures ≤ st.failures →
        0 ≤ st'.inflight → st'.inflight ≤ st.inflight →
        st'.successes = st.successes → st'.total = st.total →
        credentialScore w (some st) ≤ credentialScore w (some st')) := by
  have hformula : ∀ (w : Int) (st : CredState), 0 ≤ st.ewmaLatency →
      credentialScore w (some st)
        = (if w ≤ 0 then (1 : ℚ) else (w : ℚ))
            * (((st.successes : ℚ) + 1) / ((st.total : ℚ) + 2))
            * (1 / (1 + (st.failures : ℚ)))
            * (1 / (1 + st.ewmaLatency / 2500))
            * (1 / (1 + (st.inflight : ℚ))) := by
    intro w st he
    unfold credentialScore
    rcases lt_or_eq_of_le he with hpos | hzero
    · simp [hpos]
    · simp [← hzero]
  refine ⟨hformula, ?_⟩
  intro w st st' he0 hee hf hi0 hii hs ht
  rw [hformula w st (le_trans he0 hee), hformula w st' he0, hs, ht]
  have hw : (0 : ℚ) ≤ (if w ≤ 0 then (1 : ℚ) else (w : ℚ)) := by
    split
    · norm_num
    · exact_mod_cast le_of_lt (by omega : 0 < w)
  have hinf : (0 : ℚ) ≤ (st'.inflight : ℚ) := by exact_mod_cast hi0
  have hinf2 : (st'.inflight : ℚ) ≤ (st.inflight : ℚ) := by exact_mod_cast hii
  have hfq : ((st'.failures : ℚ)) ≤ ((st.failures : ℚ)) := by exact_mod_cast hf
  have hWH : (0 : ℚ) ≤ (if w ≤ 0 then (1 : ℚ) else (w : ℚ))
      * (((st.successes : ℚ) + 1) / ((st.total : ℚ) + 2)) := by
    apply mul_nonneg hw
    positivity
  have keyf : (1 : ℚ) / (1 + (st.failures : ℚ)) ≤ 1 / (1 + (st'.failures : ℚ)) := by
    apply one_div_le_one_div_of_le (by positivity)
    linarith
  have keyl : (1 : ℚ) / (1 + st.ewmaLatency / 2500) ≤ 1 / (1 + st'.ewmaLatency / 2500) := by
    apply one_div_le_one_div_of_le (by linarith)
    linarith
  have keyi : (1 : ℚ) / (1 + (st.inflight : ℚ)) ≤ 1 / (1 + (st'.inflight : ℚ)) := by
    apply one_div_le_one_div_of_le (by linarith)
    linarith
  have hFt : (0 : ℚ) ≤ 1 / (1 + (st.failures : ℚ)) := by positivity
  have hLt : (0 : ℚ) ≤ 1 / (1 + st.ewmaLatency / 2500) := by
    apply div_nonneg (by norm_num)
    linarith
  have hIt : (0 : ℚ) ≤ 1 / (1 + (st.inflight : ℚ)) := by
    apply div_nonneg (by norm_num)
    linarith
  have hFL : (0 : ℚ) ≤ 1 / (1 + (st'.failures : ℚ)) * (1 / (1 + st'.ewmaLatency / 2500)) := by
    apply mul_nonneg (by positivity)
    apply div_nonneg (by norm_num)
    linarith
  have main :
      1 / (1 + (st.failures : ℚ)) * (1 / (1 + st.ewmaLatency / 2500))
          * (1 / (1 + (st.inflight : ℚ)))
        ≤ 1 / (1 + (st'.failures : ℚ)) * (1 / (1 + st'.ewmaLatency / 2500))
          * (1 / (1 + (st'.inflight : ℚ))) := by
    apply mul_le_mul _ keyi hIt hFL
    exact mul_le_mul keyf keyl hLt (by positivity)
  calc
    (if w ≤ 0 then (1 : ℚ) else (w : ℚ))
        * (((st.successes : ℚ) + 1) / ((st.total : ℚ) + 2))
        * (1 / (1 + (st.failures : ℚ))) * (1 / (1 + st.ewmaLatency / 2500))
        * (1 / (1 + (st.inflight : ℚ)))
      = (if w ≤ 0 then (1 : ℚ) else (w : ℚ))
          * (((st.successes : ℚ) + 1) / ((st.total : ℚ) + 2))
          * (1 / (1 + (st.failures : ℚ)) * (1 / (1 + st.ewmaLatency / 2500))
              * (1 / (1 + (st.inflight : ℚ)))) := by ring
    _ ≤ (if w ≤ 0 then (1 : ℚ) else (w : ℚ))
          * (((st.successes : ℚ) + 1) / ((st.total : ℚ) + 2))
          * (1 / (1 + (st'.failures : ℚ)) * (1 / (1 + st'.ewmaLatency / 2500))
              * (1 / (1 + (st'.inflight : ℚ)))) := by
        exact mul_le_mul_of_nonneg_left main hWH
    _ = (if w ≤ 0 then (1 : ℚ) else (w : ℚ))
          * (((st.successes : ℚ) + 1) / ((st.total : ℚ) + 2))
          * (1 / (1 + (st'.failures : ℚ))) * (1 / (1 + st'.ewmaLatency / 2500))
          * (1 / (1 + (st'.inflight : ℚ))) := by ring

/-- Witness for `c8_score_formula_and_monotone` at concrete states. -/
theorem c8_score_formula_and_monotone_witness :
    credentialScore 2 (some scoreStateSlow)
      = 2 * ((3 + 1) / (4 + 2)) * (1 / (1 + 1)) * (1 / (1 + 2500 / 2500)) * (1 / (1 + 1))
    ∧ credentialScore 2 (some scoreStateSlow) ≤ credentialScore 2 (some scoreStateFast) := by
  constructor
  · have h := c8_score_formula_and_monotone.1 2 scoreStateSlow (by norm_num [scoreStateSlow])
    rw [h]
    norm_num [scoreStateSlow]
  · exact c8_score_formula_and_monotone.2 2 scoreStateSlow scoreStateFast
      (by norm_num [scoreStateFast]) (by norm_num [scoreStateFast, scoreStateSlow])
      (by norm_num [scoreStateFast, scoreStateSlow]) (by norm_num [scoreStateFast])
      (by norm_num [scoreStateFast, scoreStateSlow]) rfl rfl

/-! ## String helpers

`strings.ToLower` / `strings.TrimSpace` are modelled on the ASCII range
(every string the verified claims exercise is ASCII); the definitions work on
the character list so that they evaluate inside the kernel. -/

theorem rcLookup_rcDel (c : List (String × RouteEntry)) (k k2 : String) :
    rcLookup (rcDel c k) k2 = if k2 = k then none else rcLookup c k2 := by
  induction c with
  | nil =>
    by_cases h : k2 = k <;> simp [rcDel, rcLookup, h]
  | cons p rest ih =>
    obtain ⟨pk, pe⟩ := p
    by_cases h1 : pk = k
    · simp only [rcDel, if_pos h1]
      rw [ih]
      by_cases h2 : k2 = k
      · rw [if_pos h2, if_pos h2]
      · rw [if_neg h2, if_neg h2]
        simp only [rcLookup]
        rw [if_neg (by rw [h1]; exact fun hh => h2 hh.symm)]
    · simp only [rcDel, if_neg h1, rcLookup]
      by_cases h2 : pk = k2
      · rw [if_pos h2, if_neg (fun hh => h1 (h2.trans hh)), if_pos h2]
      · rw [if_neg h2, ih]
        by_cases h3 : k2 = k
        · rw [if_pos h3, if_pos h3]
        · rw [if_neg h3, if_neg h3, if_neg h2]

theorem rcLookup_rcSet (c : List (String × RouteEntry)) (k k2 : String) (e : RouteEntry) :
    rcLookup (rcSet c k e) k2 = if k = k2 then some e else rcLookup c k2 := by
  by_cases h : k = k2
  · simp [rcSet, rcLookup, h]
  · rw [rcSet, rcLookup, if_neg h, if_neg h, rcLookup_rcDel,
      if_neg (fun hh => h hh.symm)]

theorem recordRouteResult_ok_eq (c : List (String × RouteEntry)) (pid : Nat)
    (facade model : String) (cid status : Nat) (now : Int)
    (hp : pid ≠ 0) (hc : cid ≠ 0) :
    recordRouteResult c pid facade model cid true status now
      = rcSet c (routeKey pid facade model) ⟨cid, now + 90000⟩ := by
  simp [recordRouteResult, hp, hc]

theorem recordRouteResult_fail_eq (c : List (String × RouteEntry)) (pid : Nat)
    (facade model : String) (cid status : Nat) (now : Int)
    (hp : pid ≠ 0) (hc : cid ≠ 0) :
    recordRouteResult c pid facade model cid false status now
      = if isEvictStatus status then
          match rcLookup c (routeKey pid facade model) with
          | some cur => if cur.credentialID = cid then rcDel c (routeKey pid facade model) else c
          | none => c
        else c := by
  simp [recordRouteResult, hp, hc]

/-- C3 fails as stated: a `RecordRouteResult` call with `pool_id = 0` and
`ok = true` does not create the cache entry the claim promises, because the
function ignores calls with a zero pool or credential id. -/
theorem c3_zero_pool_counterexample :
    ¬ rcLookup (recordRouteResult [] 0 "anthropic" "claude-3" 5 true 200 0)
        (routeKey 0 "anthropic" "claude-3") = some ⟨5, 90000⟩ := by
  have h : recordRouteResult [] 0 "anthropic" "claude-3" 5 true 200 0 = [] := by
    simp [recordRouteResult]
  rw [h]
  simp [rcLookup]

/-- C3 (amended: calls with a zero pool or credential id are ignored). For
every call with `pool_id ≠ 0` and `credential_id ≠ 0`: on `ok` the entry for
`(pool_id, facade, model)` is set to `(credential_id, now + 90 s)` and all
other keys are untouched; on failure the entry is deleted exactly when the
status is in `{0, 401, 403, 429} ∪ [500, ∞)` and the cache currently points
to the same credential, and every other non-ok call leaves the cache
unchanged. -/
theorem c3_recordRouteResult_postcondition (c : List (String × RouteEntry)) (pid : Nat)
    (facade model : String) (cid : Nat) (status : Nat) (now : Int)
    (hp : pid ≠ 0) (hc : cid ≠ 0) :
    (rcLookup (recordRouteResult c pid facade model cid true status now)
        (routeKey pid facade model) = some ⟨cid, now + 90000⟩
      ∧ ∀ k, k ≠ routeKey pid facade model →
          rcLookup (recordRouteResult c pid facade model cid true status now) k = rcLookup c k)
    ∧ ((isEvictStatus status = true
          ∧ ∃ e, rcLookup c (routeKey pid facade model) = some e ∧ e.credentialID = cid) →
        rcLookup (recordRouteResult c pid facade model cid false status now)
          (routeKey pid facade model) = none)
    ∧ (¬ (isEvictStatus status = true
          ∧ ∃ e, rcLookup c (routeKey pid facade model) = some e ∧ e.credentialID = cid) →
        recordRouteResult c pid facade model cid false status now = c) := by
  refine ⟨⟨?_, ?_⟩, ?_, ?_⟩
  · rw [recordRouteResult_ok_eq c pid facade model cid status now hp hc, rcLookup_rcSet,
      if_pos rfl]
  · intro k hk
    rw [recordRouteResult_ok_eq c pid facade model cid status now hp hc, rcLookup_rcSet,
      if_neg (fun hh => hk hh.symm)]
  · rintro ⟨hev, e, hlook, hcid⟩
    rw [recordRouteResult_fail_eq c pid facade model cid status now hp hc, if_pos hev, hlook]
    show rcLookup (if e.credentialID = cid then rcDel c (routeKey pid facade model) else c)
      (routeKey pid facade model) = none
    rw [if_pos hcid, rcLookup_rcDel, if_pos rfl]
  · intro hneg
    rw [recordRouteResult_fail_eq c pid facade model cid status now hp hc]
    by_cases hev : isEvictStatus status = true
    · rw [if_pos hev]
      cases hlook : rcLookup c (routeKey pid facade model) with
      | none => rfl
      | some e =>
        have hne : ¬ e.credentialID = cid := fun hcid => hneg ⟨hev, e, hlook, hcid⟩
        simp [hne]
    · rw [if_neg hev]

/-- Witness for `c3_recordRouteResult_postcondition` at a concrete cache. -/
theorem c3_recordRouteResult_postcondition_witness :
    rcLookup (recordRouteResult [] 3 "anthropic" "claude-3" 5 true 200 1000)
        (routeKey 3 "anthropic" "claude-3") = some ⟨5, 1000 + 90000⟩
    ∧ recordRouteResult [] 3 "anthropic" "claude-3" 5 false 400 1000 = [] := by
  have h := c3_recordRouteResult_postcondition [] 3 "anthropic" "claude-3" 5 200 1000
    (by norm_num) (by norm_num)
  have h2 := c3_recordRouteResult_postcondition [] 3 "anthropic" "claude-3" 5 400 1000
    (by norm_num) (by norm_num)
  refine ⟨h.1.1, h2.2.2 ?_⟩
  rintro ⟨hev, e, hlook, _⟩
  simp [rcLookup] at hlook

/-! ## Legacy flat-list credential pick (`Router.pickCredentialFromPool`, fallback path)

The legacy fallback of `pickCredentialFromPool` (no tiers): choose the id
list (`ExpandedCredentialIDs` for `weighted_rr` when non-empty, else
`CredentialIDs`), read the post-increment pool counter `count`, then scan up
to `len(ids)` positions `ids[(count+i) mod len]` and return the first
available credential. -/

theorem findSome?_guard {α β : Type} (l : List α) (f : α → β) (p : β → Bool) :
    (l.findSome? fun a => if p (f a) then some (f a) else none) = (l.map f).find? p := by
  induction l with
  | nil => rfl
  | cons a l ih =>
    simp only [List.findSome?, List.map_cons, List.find?]
    by_cases h : p (f a) = true
    · simp [h]
    · simp only [Bool.not_eq_true] at h
      simp [h, ih]

theorem scanSeq_eq_rotate (ids : List Nat) (count : Nat) (h : ids ≠ []) :
    (List.range ids.length).map (fun i => ids.getD ((count + i) % ids.length) 0)
      = ids.rotate (count % ids.length) := by
  have hn : 0 < ids.length := List.length_pos.mpr h
  apply List.ext_getElem
  · simp [List.length_rotate]
  · intro i h1 h2
    simp only [List.getElem_map, List.getElem_range]
    rw [List.getElem_rotate]
    rw [List.getD_eq_getElem _ _ (Nat.mod_lt _ hn)]
    congr 1
    rw [Nat.add_mod_mod, Nat.add_comm]

theorem scanFrom_eq_find_rotate (ids : List Nat) (count : Nat) (avail : Nat → Bool)
    (h : ids ≠ []) :
    scanFrom ids count avail = (ids.rotate (count % ids.length)).find? avail := by
  unfold scanFrom
  rw [findSome?_guard, scanSeq_eq_rotate ids count h]

/-- C4 fails as stated: with expanded list `[10, 20]`, post-increment counter
1 and all credentials available, the source scan starts at index
`counter mod 2 = 1` and returns credential 20, while a scan starting at
`(counter − 1) mod 2 = 0` as the claim states would return credential 10. -/
theorem c4_scan_start_counterexample :
    pickCredentialLegacy "weighted_rr" [] [10, 20] 1 (fun _ => true) = some 20
    ∧ scanFromSpecStart [10, 20] 1 (fun _ => true) = some 10
    ∧ (some 20 ≠ (some 10 : Option Nat)) := by
  refine ⟨by decide, by decide, by decide⟩

/-- C4 (amended: the scan starts at index `counter mod len(expanded)`, where
`counter` is the pool counter value after the atomic increment). In the
legacy `weighted_rr` path with a non-empty expanded list the pick equals the
first available credential of the expanded list rotated to start at
`counter mod len`; it is `none` exactly when no credential of the expanded
list is available, and any returned credential is an available member of the
list. -/
theorem c4_weighted_rr_scan (cids ids : List Nat) (count : Nat) (avail : Nat → Bool)
    (h : ids ≠ []) :
    pickCredentialLegacy "weighted_rr" cids ids count avail
      = (ids.rotate (count % ids.length)).find? avail
    ∧ (pickCredentialLegacy "weighted_rr" cids ids count avail = none
        ↔ ∀ cid ∈ ids, avail cid = false)
    ∧ ∀ cid, pickCredentialLegacy "weighted_rr" cids ids count avail = some cid →
        avail cid = true ∧ cid ∈ ids := by
  have hmain : pickCredentialLegacy "weighted_rr" cids ids count avail
      = (ids.rotate (count % ids.length)).find? avail := by
    unfold pickCredentialLegacy
    rw [if_pos ⟨rfl, h⟩, scanFrom_eq_find_rotate ids count avail h]
  refine ⟨hmain, ?_, ?_⟩
  · rw [hmain, List.find?_eq_none]
    constructor
    · intro hall cid hmem
      have : cid ∈ ids.rotate (count % ids.length) :=
        ((ids.rotate_perm (count % ids.length)).mem_iff).mpr hmem
      simpa using hall cid this
    · intro hall cid hmem
      have : cid ∈ ids := ((ids.rotate_perm (count % ids.length)).mem_iff).mp hmem
      simp [hall cid this]
  · intro cid hsome
    rw [hmain] at hsome
    refine ⟨List.find?_some hsome, ?_⟩
    exact ((ids.rotate_perm (count % ids.length)).mem_iff).mp (List.mem_of_find?_eq_some hsome)

/-- Witness for `c4_weighted_rr_scan` on a concrete pool. -/
theorem c4_weighted_rr_scan_witness :
    pickCredentialLegacy "weighted_rr" [] [10, 20, 30] 4 (fun c => c != 20)
      = ([10, 20, 30].rotate (4 % 3)).find? (fun c => c != 20)
    ∧ pickCredentialLegacy "weighted_rr" [] [10, 20, 30] 4 (fun _ => false) = none := by
  constructor
  · exact (c4_weighted_rr_scan [] [10, 20, 30] 4 (fun c => c != 20) (by decide)).1
  · exact ((c4_weighted_rr_scan [] [10, 20, 30] 4 (fun _ => false) (by decide)).2.1).mpr
      (by intro cid _; rfl)

/-! ## Upstream model resolution (`Router.pickUpstream` lines 282–295,
`pickModelForAlias`, `parseStringMapJSON`)

`prov.ModelMap` / `pool.ModelMap` are Go maps looked up with the requested
model string exactly as received; `parseStringMapJSON` stores keys verbatim. -/

/-- C5 fails as stated: with a provider map storing the key `"Sonnet"`, the
requested model `"sonnet"` does not match (the source lookup is exact and
case-sensitive), while the claimed lowercased lookup would map it. -/
theorem c5_case_sensitive_counterexample :
    pickUpstreamModel [("Sonnet", "claude-x")] [] [] "sonnet" = "sonnet"
    ∧ lookupLowerSpec [("Sonnet", "claude-x")] "sonnet" = some "claude-x"
    ∧ ("sonnet" ≠ "claude-x") := by
  refine ⟨by decide, by decide, by decide⟩

/-- C5 (amended: the `model_map` lookup is an exact, case-sensitive match on
the requested model — keys are not lowercased; the mapped value, when
non-empty, is used verbatim as the upstream model). With an empty published
models set: an exact provider-map hit with a non-empty value is returned
verbatim, and with no exact hit in either map the requested model passes
through unchanged, whatever case-variant keys the maps contain. Moreover
`parseStringMapJSON` stores keys and values verbatim. -/
theorem c5_model_map_exact_lookup :
    (∀ (pm qm : List (String × String)) (m v : String),
      assocLookup pm m = some v → v ≠ "" → assocLookup qm m = none →
      pickUpstreamModel pm qm [] m = v)
    ∧ (∀ (pm qm : List (String × String)) (m : String),
      assocLookup pm m = none → assocLookup qm m = none →
      pickUpstreamModel pm qm [] m = m)
    ∧ (∀ (entries : List (String × Jx)) (k s : String),
      (k, s) ∈ parseStringMap entries → (k, Jx.str s) ∈ entries) := by
  refine ⟨?_, ?_, ?_⟩
  · intro pm qm m v h1 h2 h3
    simp [pickUpstreamModel, h1, h2, h3]
  · intro pm qm m h1 h3
    simp [pickUpstreamModel, h1, h3]
  · intro entries k s hmem
    unfold parseStringMap at hmem
    rw [List.mem_filterMap] at hmem
    obtain ⟨⟨k2, v2⟩, hin, heq⟩ := hmem
    cases v2 with
    | str s2 =>
      simp only [Option.some_inj, Prod.mk.injEq] at heq
      obtain ⟨hk, hs⟩ := heq
      exact hk ▸ hs ▸ hin
    | null => simp at heq
    | bool b => simp at heq
    | num n => simp at heq
    | arr xs => simp at heq
    | obj fs => simp at heq

/-- Witness for `c5_model_map_exact_lookup` on concrete maps with a
case-variant key. -/
theorem c5_model_map_exact_lookup_witness :
    pickUpstreamModel [("sonnet", "claude-x")] [] [] "sonnet" = "claude-x"
    ∧ pickUpstreamModel [("Sonnet", "claude-x")] [] [] "sonnet" = "sonnet"
    ∧ ("claude", Jx.str "anthropic") ∈ [("claude", Jx.str "anthropic")] := by
  refine ⟨?_, ?_, ?_⟩
  · exact c5_model_map_exact_lookup.1 [("sonnet", "claude-x")] [] "sonnet" "claude-x"
      (by decide) (by decide) rfl
  · exact c5_model_map_exact_lookup.2.1 [("Sonnet", "claude-x")] [] "sonnet" (by decide) rfl
  · exact c5_model_map_exact_lookup.2.2 [("claude", Jx.str "anthropic")] "claude" "anthropic"
      (by simp [parseStringMap])

/-! ## Orchestrator registry traces (`Handler.createMessage`, anthropic provider case)

The Anthropic-facade handler loop (part of the orchestrator) is modelled as
the sequence of credential-registry and route-cache operations it performs.
`PickOutcome` abstracts `PickUpstream`/`PickUpstreamExclude` (a successful
pick performs `startRequest` internally); `CallOutcome` abstracts the body
remarshal and the upstream HTTP call of the `"anthropic"` provider case. -/

/-- C1 is the spec's hard invariant and the code breaks it: for a streaming
anthropic-passthrough request whose upstream replies 500, the handler calls
`EndRequest` once in the `!ok` branch and, because no retry attempt remains,
falls through and calls `EndRequest` again on the stream tail — two
`EndRequest` for the single `StartRequest` of the pick, net inflight −1. -/
theorem c1_endRequest_double_decrement :
    anthCreateMessage true "claude-3" (fun _ => .picked 7 3) (fun _ => .resp 500 false)
      = [REvent.start 7, REvent.endReq 7 false 500, REvent.endReq 7 false 500,
         REvent.record 3 "anthropic" "claude-3" 7 false 500]
    ∧ countStart (anthCreateMessage true "claude-3" (fun _ => .picked 7 3)
        (fun _ => .resp 500 false)) 7 = 1
    ∧ countEnd (anthCreateMessage true "claude-3" (fun _ => .picked 7 3)
        (fun _ => .resp 500 false)) 7 = 2 := by
  refine ⟨by decide, by decide, by decide⟩

/-- C10. On the Anthropic facade with an Anthropic upstream, a non-stream
response with status in `[200, 500)` other than 429 (including 400, 401,
403) reaches `EndRequest` and `RecordRouteResult` with `ok = true`, and that
`RecordRouteResult` call creates or refreshes the 90-second sticky route
cache entry pointing at the credential that returned the status. -/
theorem c10_passthrough_ok_states_sticky (cid pid status : Nat) (model : String)
    (pick : Nat → PickOutcome) (call : Nat → CallOutcome) (copyErr : Bool)
    (c : List (String × RouteEntry)) (now : Int)
    (hpick : pick 0 = .picked cid pid) (hcall : call 0 = .resp status copyErr)
    (h2 : 200 ≤ status) (h3 : status < 500) (h4 : status ≠ 429)
    (hcid : cid ≠ 0) (hpid : pid ≠ 0) :
    anthCreateMessage false model pick call
      = [REvent.start cid, REvent.endReq cid true status,
         REvent.record pid "anthropic" model cid true status]
    ∧ rcLookup (recordRouteResult c pid "anthropic" model cid true status now)
        (routeKey pid "anthropic" model) = some ⟨cid, now + 90000⟩ := by
  constructor
  · have hok : (decide (status < 500) && !(status == 429)) = true := by
      simp [h3, h4]
    simp only [anthCreateMessage, anthLoop, hpick, hcall, if_neg (by norm_num : ¬ True = False)]
    rw [hok]
    simp [anthTail]
  · rw [recordRouteResult_ok_eq c pid "anthropic" model cid status now hpid hcid,
      rcLookup_rcSet, if_pos rfl]

/-- Witness for `c10_passthrough_ok_states_sticky` with an upstream 401. -/
theorem c10_passthrough_ok_states_sticky_witness :
    anthCreateMessage false "claude-3" (fun _ => .picked 7 3) (fun _ => .resp 401 false)
      = [REvent.start 7, REvent.endReq 7 true 401,
         REvent.record 3 "anthropic" "claude-3" 7 true 401]
    ∧ rcLookup (recordRouteResult [] 3 "anthropic" "claude-3" 7 true 401 0)
        (routeKey 3 "anthropic" "claude-3") = some ⟨7, 0 + 90000⟩ :=
  c10_passthrough_ok_states_sticky 7 3 401 "claude-3" (fun _ => .picked 7 3)
    (fun _ => .resp 401 false) false [] 0 rfl rfl (by norm_num) (by norm_num) (by norm_num)
    (by norm_num) (by norm_num)

/-! ## SSE stream transcoding (`streamconv.OpenAIToAnthropic`, `streamconv.AnthropicToOpenAI`)

Each transcoder reads SSE blocks in order; a block is modelled by what the
loop body can distinguish: empty `data:` payload, the `[DONE]` sentinel
(OpenAI inputs only), a payload whose JSON fails to unmarshal (`malformed`),
or the decoded chunk/event. Emitted writes are modelled as typed events. -/

theorem oaLoop_malformed (ys : List OInBlock) :
    ∀ (xs : List OInBlock) (st : OAState),
      oaLoop st (xs ++ OInBlock.malformed :: ys) = oaLoop st (xs ++ ys) := by
  intro xs
  induction xs with
  | nil =>
    intro st
    simp [oaLoop, oaStep]
  | cons b xs ih =>
    intro st
    simp only [List.cons_append, oaLoop, List.append_eq]
    rw [ih]

theorem aoLoop_malformed (ys : List AInBlock) :
    ∀ (xs : List AInBlock) (st : AOState),
      aoLoop st (xs ++ AInBlock.malformed :: ys) = aoLoop st (xs ++ ys) := by
  intro xs
  induction xs with
  | nil =>
    intro st
    simp [aoLoop, aoStep]
  | cons b xs ih =>
    intro st
    simp only [List.cons_append, aoLoop, List.append_eq]
    rw [ih]

/-- C9. In both stream transcoders a block whose `data:` payload fails to
unmarshal is skipped and the loop continues with the following blocks: the
emitted stream is exactly the one produced without the malformed block, and
the transcode never errors or ends early because of it (both transcoders are
total functions of the block list). -/
theorem c9_malformed_blocks_skipped (xs ys : List OInBlock) (as bs : List AInBlock) :
    openAIToAnthropicStream (xs ++ OInBlock.malformed :: ys)
      = openAIToAnthropicStream (xs ++ ys)
    ∧ anthropicToOpenAIStream (as ++ AInBlock.malformed :: bs)
      = anthropicToOpenAIStream (as ++ bs) := by
  constructor
  · unfold openAIToAnthropicStream
    rw [oaLoop_malformed]
  · unfold anthropicToOpenAIStream
    rw [aoLoop_malformed]

/-! ## Non-stream response conversion and stop reasons (`internal/convert`,
`anthropic_from_openai.go` / part_003)

`OpenAIChatCompletionResponse` and the Anthropic message response are typed;
a `tool_use` block carries the raw `arguments` string whose parse is the Go
`input` value (random response ids and timestamps are not modelled). -/

/-- C7. Stop reasons map as specified in both directions: trimmed Anthropic
`max_tokens` maps to `length`, `tool_use` to `tool_calls`, and every other
value (`end_turn`, `stop_sequence`, missing, unknown) to `stop`; in the
OpenAI→Anthropic direction, with no tool calls present, trimmed `length`
maps to `max_tokens`, `tool_calls` to `tool_use`, and every other value
(`stop`, missing, unknown) to `end_turn`, while any present tool call forces
`tool_use`; and when an OpenAI response message carries any `tool_calls`, the
converted Anthropic response has `stop_reason = tool_use` regardless of
`finish_reason`. -/
theorem c7_stop_reason_mapping :
    (∀ sr : String,
      mapAnthropicStopReasonToOpenAIFinishReason sr
        = if goTrim sr = "max_tokens" then "length"
          else if goTrim sr = "tool_use" then "tool_calls"
          else "stop")
    ∧ (∀ (fr : String) (hasToolCalls : Bool),
      mapOpenAIFinishReasonToAnthropicStopReason fr hasToolCalls
        = if hasToolCalls then "tool_use"
          else if goTrim fr = "length" then "max_tokens"
          else if goTrim fr = "tool_calls" then "tool_use"
          else "end_turn")
    ∧ (∀ (o : OChatResp) (model : String) (c : OChatChoice) (rest : List OChatChoice),
        o.choices = c :: rest → c.message.toolCalls ≠ [] →
        (OpenAIResponseToAnthropic o model).stopReason = "tool_use") := by
  refine ⟨?_, ?_, ?_⟩
  · intro sr
    unfold mapAnthropicStopReasonToOpenAIFinishReason
    split <;> simp_all
  · intro fr hasToolCalls
    cases hasToolCalls with
    | true => rfl
    | false =>
      unfold mapOpenAIFinishReasonToAnthropicStopReason
      rw [if_neg (by decide : ¬ (false : Bool) = true), if_neg (by decide)]
      split <;> simp_all
  · intro o model c rest hch htc
    unfold OpenAIResponseToAnthropic
    rw [hch]
    cases hmt : c.message.toolCalls with
    | nil => exact absurd hmt htc
    | cons tc tcs =>
      simp [mapOpenAIFinishReasonToAnthropicStopReason, hmt]

/-- Witness for `c7_stop_reason_mapping`: a response with one tool call and
`finish_reason = "stop"` converts with `stop_reason = "tool_use"`. -/
theorem c7_stop_reason_mapping_witness :
    mapAnthropicStopReasonToOpenAIFinishReason "max_tokens" = "length"
    ∧ mapOpenAIFinishReasonToAnthropicStopReason "length" false = "max_tokens"
    ∧ (OpenAIResponseToAnthropic c7WitnessResp "claude-3").stopReason = "tool_use" := by
  refine ⟨?_, ?_, ?_⟩
  · rw [c7_stop_reason_mapping.1 "max_tokens"]
    decide
  · rw [c7_stop_reason_mapping.2.1 "length" false]
    decide
  · exact c7_stop_reason_mapping.2.2 c7WitnessResp "claude-3" c7WitnessChoice [] rfl (by decide)

/-! ## Request conversion (`internal/convert/anthropic_openai.go`)

Typed embedding of `AnthropicToOpenAIChatRequest` and
`OpenAIToAnthropicMessageRequest`. Conventions:
* a Go string that holds marshalled JSON is represented by the value it
  decodes to (`OArgs.enc v` is the `json.Marshal` image of `v`, never
  whitespace-blank, and unmarshals back to `v`);
* map fields read with a type assertion default (`id, _ := m["id"].(string)`)
  are plain `String` fields with `""` for a missing key;
* Go `if err != nil { return }` plumbing is written as explicit matches on
  `Except`. -/

theorem dropWhile_idem (p : Char → Bool) (l : List Char) :
    (l.dropWhile p).dropWhile p = l.dropWhile p := by
  induction l with
  | nil => rfl
  | cons x xs ih =>
    rw [List.dropWhile_cons]
    by_cases h : p x = true
    · rw [if_pos h]
      exact ih
    · rw [if_neg h, List.dropWhile_cons, if_neg h]

theorem dropWhile_head_false (p : Char → Bool) :
    ∀ (l : List Char) (a : Char) (as : List Char), l.dropWhile p = a :: as → p a = false := by
  intro l
  induction l with
  | nil => intro a as h; exact absurd h (by simp)
  | cons x xs ih =>
    intro a as h
    rw [List.dropWhile_cons] at h
    by_cases hx : p x = true
    · rw [if_pos hx] at h
      exact ih a as h
    · rw [if_neg hx] at h
      obtain ⟨h1, _⟩ := List.cons.inj h
      rw [← h1]
      exact Bool.eq_false_iff.mpr hx

theorem trimList_dropWhile (l : List Char) :
    (trimList l).dropWhile isSpaceChar = trimList l := by
  unfold trimList
  cases hA : l.dropWhile isSpaceChar with
  | nil => simp
  | cons a as =>
    have ha : isSpaceChar a = false := dropWhile_head_false isSpaceChar l a as hA
    rw [List.reverse_cons, List.dropWhile_append]
    by_cases he : (as.reverse.dropWhile isSpaceChar).isEmpty = true
    · rw [if_pos he]
      simp [List.dropWhile_cons, ha]
    · rw [if_neg he, List.reverse_append]
      simp [List.dropWhile_cons, ha]

theorem trimList_idem (l : List Char) : trimList (trimList l) = trimList l := by
  show ((((trimList l).dropWhile isSpaceChar).reverse).dropWhile isSpaceChar).reverse = trimList l
  rw [trimList_dropWhile]
  unfold trimList
  rw [List.reverse_reverse, dropWhile_idem]

theorem goTrim_idem (s : String) : goTrim (goTrim s) = goTrim s := by
  show String.mk (trimList (trimList s.data)) = String.mk (trimList s.data)
  rw [trimList_idem]

theorem strStarts_ne_empty (s pre : String) (hpre : pre ≠ "")
    (h : strStarts s pre = true) : s ≠ "" := by
  intro hs
  rw [hs] at h
  unfold strStarts at h
  cases hp : pre.data with
  | nil =>
    apply hpre
    cases pre with
    | mk d => simp at hp; rw [hp]
  | cons c cs =>
    rw [hp] at h
    simp [List.isPrefixOf] at h

theorem parse_some_trim_ne (u : String) (h : ¬ parseDataImageURL u = none) :
    ¬ goTrim u = "" := by
  intro he
  apply h
  unfold parseDataImageURL
  rw [he]
  simp only
  rw [if_pos]
  intro hpre
  exact strStarts_ne_empty "" "data:image/" (by decide) hpre rfl

theorem blockToolUsePairs_append (xs ys : List ABlock) :
    blockToolUsePairs (xs ++ ys) = blockToolUsePairs xs ++ blockToolUsePairs ys := by
  simp [blockToolUsePairs, List.filterMap_append]

theorem blockToolResultIds_append (xs ys : List ABlock) :
    blockToolResultIds (xs ++ ys) = blockToolResultIds xs ++ blockToolResultIds ys := by
  simp [blockToolResultIds, List.filterMap_append]

theorem oPartsToABlocks_forward (ps : List OPart) (h : ∀ p ∈ ps, partOk p) :
    ∃ bs2, oPartsToABlocks ps = .ok bs2
      ∧ blockToolUsePairs bs2 = [] ∧ blockToolResultIds bs2 = [] := by
  induction ps with
  | nil => exact ⟨[], rfl, rfl, rfl⟩
  | cons p ps ih =>
    obtain ⟨bs2, hok, hpairs, hids⟩ := ih (fun q hq => h q (List.mem_cons_of_mem p hq))
    have hp := h p (List.mem_cons_self p ps)
    cases p with
    | text t =>
      refine ⟨(if t = "" then [] else [ABlock.text t]) ++ bs2, ?_, ?_, ?_⟩
      · simp only [oPartsToABlocks, hok]
      · rw [blockToolUsePairs_append, hpairs, List.append_nil]
        by_cases ht : t = "" <;> simp [ht, blockToolUsePairs]
      · rw [blockToolResultIds_append, hids, List.append_nil]
        by_cases ht : t = "" <;> simp [ht, blockToolResultIds]
    | imageUrl u =>
      have hne : ¬ goTrim u = "" := by
        rcases hp with hparse | ⟨hne, _⟩
        · exact parse_some_trim_ne u hparse
        · exact hne
      cases hparse : parseDataImageURL u with
      | some md =>
        refine ⟨[ABlock.image (some (ImgSrc.base64 md.1 md.2))] ++ bs2, ?_, ?_, ?_⟩
        · simp only [oPartsToABlocks, if_neg hne, hparse, hok]
        · rw [blockToolUsePairs_append, hpairs, List.append_nil]
          rfl
        · rw [blockToolResultIds_append, hids, List.append_nil]
          rfl
      | none =>
        have hhttps : strStarts (goTrim u) "https://" = true := by
          rcases hp with hparse2 | ⟨_, hh⟩
          · exact absurd hparse hparse2
          · exact hh
        refine ⟨[ABlock.image (some (ImgSrc.url u))] ++ bs2, ?_, ?_, ?_⟩
        · simp only [oPartsToABlocks, if_neg hne, hparse, if_pos hhttps, hok]
        · rw [blockToolUsePairs_append, hpairs, List.append_nil]
          rfl
        · rw [blockToolResultIds_append, hids, List.append_nil]
          rfl
    | other typ => exact absurd hp (by simp [partOk])

theorem collectBlocks_spec :
    ∀ (bs : List ABlock) (acc : FwdAcc), collectBlocks bs = .ok acc →
      (∀ b ∈ bs, fwdBlockOk b)
      ∧ (∀ p ∈ acc.contentParts, (∃ t, p = OPart.text t)
          ∨ ∃ src, ABlock.image src ∈ bs ∧ anthropicImageBlockToOpenAIContentPart src = .ok p)
      ∧ acc.toolCalls = bs.filterMap fwdTCOf
      ∧ acc.toolMessages = bs.filterMap fwdTMOf := by
  intro bs
  induction bs with
  | nil =>
    intro acc h
    simp only [collectBlocks] at h
    injection h with h
    subst h
    refine ⟨by simp, by simp [FwdAcc], by simp [FwdAcc], by simp [FwdAcc]⟩
  | cons b bs ih =>
    intro acc h
    simp only [collectBlocks] at h
    cases hb : fwdBlockAcc b with
    | error e => rw [hb] at h; exact absurd h (by simp)
    | ok a =>
      rw [hb] at h
      cases hr : collectBlocks bs with
      | error e => rw [hr] at h; exact absurd h (by simp)
      | ok rest =>
        rw [hr] at h
        injection h with h
        subst h
        obtain ⟨ihok, ihcp, ihtc, ihtm⟩ := ih rest hr
        have hsplit :
            fwdBlockOk b
            ∧ (∀ p ∈ a.contentParts, (∃ t, p = OPart.text t)
                ∨ ∃ src, ABlock.image src = b ∧ anthropicImageBlockToOpenAIContentPart src = .ok p)
            ∧ a.toolCalls = (fwdTCOf b).toList
            ∧ a.toolMessages = (fwdTMOf b).toList := by
          cases b with
          | text t =>
            simp only [fwdBlockAcc] at hb
            injection hb with hb
            subst hb
            by_cases ht : t = "" <;>
              simp [ht, fwdBlockOk, fwdTCOf, fwdTMOf, FwdAcc]
          | thinking t =>
            simp only [fwdBlockAcc] at hb
            injection hb with hb
            subst hb
            by_cases ht : t = "" <;>
              simp [ht, fwdBlockOk, fwdTCOf, fwdTMOf, FwdAcc]
          | toolUse id name input =>
            simp only [fwdBlockAcc] at hb
            by_cases hc : goTrim id = "" ∨ goTrim name = ""
            · rw [if_pos hc] at hb; exact absurd hb (by simp)
            · rw [if_neg hc] at hb
              injection hb with hb
              subst hb
              push_neg at hc
              simp [fwdBlockOk, fwdTCOf, fwdTMOf, hc.1, hc.2]
          | toolResult tuid content isErr =>
            simp only [fwdBlockAcc] at hb
            by_cases hc : goTrim tuid = ""
            · rw [if_pos hc] at hb; exact absurd hb (by simp)
            · rw [if_neg hc] at hb
              injection hb with hb
              subst hb
              simp [fwdBlockOk, fwdTCOf, fwdTMOf, hc]
          | image src =>
            simp only [fwdBlockAcc] at hb
            cases hp : anthropicImageBlockToOpenAIContentPart src with
            | error e => rw [hp] at hb; exact absurd hb (by simp)
            | ok part =>
              rw [hp] at hb
              injection hb with hb
              subst hb
              refine ⟨⟨part, hp⟩, ?_, by simp [fwdTCOf], by simp [fwdTMOf]⟩
              intro p hmem
              simp at hmem
              subst hmem
              exact Or.inr ⟨src, rfl, hp⟩
          | other typ =>
            simp only [fwdBlockAcc] at hb
            exact absurd hb (by simp)
        obtain ⟨hb1, hb2, hb3, hb4⟩ := hsplit
        refine ⟨?_, ?_, ?_, ?_⟩
        · intro x hx
          rcases List.mem_cons.mp hx with hx | hx
          · rw [hx]; exact hb1
          · exact ihok x hx
        · intro p hp
          simp only [FwdAcc.append] at hp
          rcases List.mem_append.mp hp with hp | hp
          · rcases hb2 p hp with htext | ⟨src, hsrc, hok2⟩
            · exact Or.inl htext
            · exact Or.inr ⟨src, by rw [hsrc]; exact List.mem_cons_self b bs, hok2⟩
          · rcases ihcp p hp with htext | ⟨src, hsrc, hok2⟩
            · exact Or.inl htext
            · exact Or.inr ⟨src, List.mem_cons_of_mem b hsrc, hok2⟩
        · simp only [FwdAcc.append, ihtc, hb3, List.filterMap_cons]
          cases fwdTCOf b <;> simp
        · simp only [FwdAcc.append, ihtm, hb4, List.filterMap_cons]
          cases fwdTMOf b <;> simp

theorem image_part_ok (src : Option ImgSrc) (p : OPart)
    (hok : anthropicImageBlockToOpenAIContentPart src = .ok p)
    (hgood : goodImage (ABlock.image src)) : partOk p := by
  cases src with
  | none => exact absurd hok (by simp [anthropicImageBlockToOpenAIContentPart])
  | some is =>
    cases is with
    | base64 mt dt =>
      simp only [anthropicImageBlockToOpenAIContentPart] at hok
      by_cases hc : goTrim mt = "" ∨ goTrim dt = ""
      · rw [if_pos hc] at hok; exact absurd hok (by simp)
      · rw [if_neg hc] at hok
        injection hok with hok
        subst hok
        exact Or.inl hgood
    | url u =>
      simp only [anthropicImageBlockToOpenAIContentPart] at hok
      by_cases hc : goTrim u = ""
      · rw [if_pos hc] at hok; exact absurd hok (by simp)
      · rw [if_neg hc] at hok
        by_cases hd : (strStarts (goTrim u) "data:image/" || strStarts (goTrim u) "https://") = true
        · rw [if_pos hd] at hok
          injection hok with hok
          subst hok
          have hg : ¬ parseDataImageURL (goTrim u) = none
              ∨ strStarts (goTrim u) "https://" = true := hgood
          show ¬ parseDataImageURL (goTrim u) = none
            ∨ ¬ goTrim (goTrim u) = "" ∧ strStarts (goTrim (goTrim u)) "https://" = true
          rw [goTrim_idem]
          rcases hg with hparse | hhttps
          · exact Or.inl hparse
          · exact Or.inr ⟨hc, hhttps⟩
        · rw [if_neg hd] at hok
          exact absurd hok (by simp)
    | otherSrc st => exact absurd hok (by simp [anthropicImageBlockToOpenAIContentPart])

theorem revMsgs_append (ys : List OMsg) (sy : List String) (my : List AMessage)
    (hy : revMsgs ys = .ok (sy, my)) :
    ∀ (xs : List OMsg) (sx : List String) (mx : List AMessage),
      revMsgs xs = .ok (sx, mx) →
      revMsgs (xs ++ ys) = .ok (sx ++ sy, mx ++ my) := by
  intro xs
  induction xs with
  | nil =>
    intro sx mx hx
    simp only [revMsgs] at hx
    injection hx with hx
    obtain ⟨h1, h2⟩ := Prod.mk.inj hx
    subst h1; subst h2
    simpa using hy
  | cons m xs ih =>
    intro sx mx hx
    simp only [List.cons_append, revMsgs, List.append_eq] at hx ⊢
    by_cases h1 : goTrim m.role = ""
    · rw [if_pos h1] at hx; exact absurd hx (by simp)
    · rw [if_neg h1] at hx ⊢
      by_cases h2 : goTrim m.role = "system"
      · rw [if_pos h2] at hx ⊢
        cases hr : revMsgs xs with
        | error e => rw [hr] at hx; exact absurd hx (by simp)
        | ok r =>
          rw [hr] at hx
          injection hx with hx
          obtain ⟨ha, hb⟩ := Prod.mk.inj hx
          rw [ih r.1 r.2 (by rw [hr])]
          rw [← ha, ← hb]
          simp
      · rw [if_neg h2] at hx ⊢
        by_cases h3 : goTrim m.role = "user" ∨ goTrim m.role = "assistant"
        · rw [if_pos h3] at hx ⊢
          cases hc : openAIMessageContentToAnthropicBlocks m.content with
          | error e => rw [hc] at hx; exact absurd hx (by simp)
          | ok cbs =>
            rw [hc] at hx
            cases ht : openAIToolCallsToAnthropicBlocks m.toolCalls with
            | error e => rw [ht] at hx; exact absurd hx (by simp)
            | ok tubs =>
              rw [ht] at hx
              cases hr : revMsgs xs with
              | error e => rw [hr] at hx; exact absurd hx (by simp)
              | ok r =>
                rw [hr] at hx
                injection hx with hx
                obtain ⟨ha, hb⟩ := Prod.mk.inj hx
                rw [ih r.1 r.2 (by rw [hr])]
                rw [← ha, ← hb]
                simp
        · rw [if_neg h3] at hx ⊢
          by_cases h4 : goTrim m.role = "tool"
          · rw [if_pos h4] at hx ⊢
            by_cases h5 : goTrim (m.toolCallID.getD "") = ""
            · rw [if_pos h5] at hx; exact absurd hx (by simp)
            · rw [if_neg h5] at hx ⊢
              cases hr : revMsgs xs with
              | error e => rw [hr] at hx; exact absurd hx (by simp)
              | ok r =>
                rw [hr] at hx
                injection hx with hx
                obtain ⟨ha, hb⟩ := Prod.mk.inj hx
                rw [ih r.1 r.2 (by rw [hr])]
                rw [← ha, ← hb]
                simp
          · rw [if_neg h4] at hx
            exact absurd hx (by simp)

theorem blockToolUsePairs_eq_filterMap (bs : List ABlock) :
    blockToolUsePairs bs = (bs.filterMap fwdTCOf).map fun tc => (tc.id, tc.name) := by
  induction bs with
  | nil => rfl
  | cons b bs ih =>
    cases b <;>
      simp [blockToolUsePairs, fwdTCOf, List.filterMap_cons, ih, blockToolUsePairs] <;>
      simp [blockToolUsePairs] at ih <;> exact ih

theorem blockToolResultIds_eq_filterMap (bs : List ABlock) :
    (blockToolResultIds bs).map goTrim
      = (bs.filterMap fwdTMOf).map fun tm => goTrim (tm.toolCallID.getD "") := by
  induction bs with
  | nil => rfl
  | cons b bs ih =>
    cases b <;>
      simp [blockToolResultIds, fwdTMOf, List.filterMap_cons, blockToolResultIds] <;>
      simp [blockToolResultIds] at ih <;> exact ih

theorem revToolCalls_forward (tcs : List OToolCall)
    (h : ∀ tc ∈ tcs, ¬ goTrim tc.id = "" ∧ ¬ goTrim tc.name = "" ∧ tc.typ = "function"
      ∧ ∃ v, tc.args = OArgs.enc v) :
    ∃ bs2, openAIToolCallsToAnthropicBlocks.go tcs = .ok bs2
      ∧ blockToolUsePairs bs2 = tcs.map (fun tc => (tc.id, tc.name))
      ∧ blockToolResultIds bs2 = [] := by
  induction tcs with
  | nil => exact ⟨[], rfl, rfl, rfl⟩
  | cons tc tcs ih =>
    obtain ⟨hid, hname, htyp, v, hargs⟩ := h tc (List.mem_cons_self tc tcs)
    obtain ⟨bs2, hok, hpairs, hids⟩ := ih fun q hq => h q (List.mem_cons_of_mem tc hq)
    refine ⟨ABlock.toolUse tc.id tc.name v :: bs2, ?_, ?_, ?_⟩
    · simp only [openAIToolCallsToAnthropicBlocks.go]
      rw [if_neg (by simp [hid, hname]), if_neg (by simp [htyp]), hargs]
      simp only [hok]
    · simp [blockToolUsePairs, List.filterMap_cons]
      simp [blockToolUsePairs] at hpairs
      exact hpairs
    · simp [blockToolResultIds, List.filterMap_cons]
      simp [blockToolResultIds] at hids
      exact hids

theorem revMsgs_toolMessages (tms : List OMsg)
    (h : ∀ tm ∈ tms, tm.role = "tool" ∧ (∃ c, tm.content = OContent.str c)
      ∧ ∃ tuid, tm.toolCallID = some tuid ∧ ¬ goTrim tuid = "") :
    ∃ ams, revMsgs tms = .ok ([], ams)
      ∧ ams.map (fun a => a.role) = List.replicate tms.length "user"
      ∧ (∀ a ∈ ams, msgToolUsePairs a = [])
      ∧ (ams.map msgToolResultIds).flatten
          = tms.map fun tm => goTrim (tm.toolCallID.getD "") := by
  induction tms with
  | nil => exact ⟨[], rfl, rfl, by simp, rfl⟩
  | cons tm tms ih =>
    obtain ⟨hrole, ⟨c, hcontent⟩, tuid, htuid, hne⟩ := h tm (List.mem_cons_self tm tms)
    obtain ⟨ams, hok, hroles, hpairs, hids⟩ := ih fun q hq => h q (List.mem_cons_of_mem tm hq)
    have hgr : goTrim tm.role = "tool" := by rw [hrole]; decide
    have hgetD : tm.toolCallID.getD "" = tuid := by rw [htuid]; rfl
    refine ⟨⟨"user", AContent.blocks
        [ABlock.toolResult (goTrim tuid) (TRC.txt (stringifyOContent tm.content)) false]⟩ :: ams,
      ?_, ?_, ?_, ?_⟩
    · simp only [revMsgs, hgr]
      rw [if_neg (show ¬ ("tool" : String) = "" by decide),
        if_neg (show ¬ ("tool" : String) = "system" by decide),
        if_neg (show ¬ (("tool" : String) = "user" ∨ ("tool" : String) = "assistant") by decide),
        if_pos trivial, hgetD, if_neg hne, hok]
    · simp [hroles, List.replicate_succ]
    · intro a ha
      rcases List.mem_cons.mp ha with ha | ha
      · rw [ha]
        rfl
      · exact hpairs a ha
    · simp only [List.map_cons, List.flatten_cons, hids, hgetD]
      rfl

theorem contentBlocks_rel (m : AMessage) (blocks : List ABlock)
    (h : anthropicContentToBlocks m.content = .ok blocks) :
    blockToolUsePairs blocks = msgToolUsePairs m
    ∧ blockToolResultIds blocks = msgToolResultIds m
    ∧ (msgGoodImages m → ∀ b ∈ blocks, goodImage b) := by
  cases hc : m.content with
  | nil =>
    rw [hc] at h
    simp only [anthropicContentToBlocks] at h
    injection h with h
    subst h
    simp [msgToolUsePairs, msgToolResultIds, msgGoodImages, hc, blockToolUsePairs,
      blockToolResultIds]
  | str s =>
    rw [hc] at h
    simp only [anthropicContentToBlocks] at h
    injection h with h
    subst h
    by_cases ht : goTrim s = "" <;>
      simp [msgToolUsePairs, msgToolResultIds, msgGoodImages, hc, blockToolUsePairs,
        blockToolResultIds, ht, goodImage]
  | blocks bs =>
    rw [hc] at h
    simp only [anthropicContentToBlocks] at h
    injection h with h
    subst h
    simp [msgToolUsePairs, msgToolResultIds, msgGoodImages, hc]
  | bad =>
    rw [hc] at h
    exact absurd h (by simp [anthropicContentToBlocks])

theorem revMsgs_cons_ua (m : OMsg) (ms : List OMsg)
    (h : m.role = "user" ∨ m.role = "assistant") :
    revMsgs (m :: ms)
      = match openAIMessageContentToAnthropicBlocks m.content with
        | .error e => .error e
        | .ok cbs =>
          match openAIToolCallsToAnthropicBlocks m.toolCalls with
          | .error e => .error e
          | .ok tubs =>
            match revMsgs ms with
            | .error e => .error e
            | .ok r => .ok (r.1, ⟨m.role, AContent.blocks (cbs ++ tubs)⟩ :: r.2) := by
  have hgr : goTrim m.role = m.role := by
    rcases h with h | h <;> rw [h] <;> decide
  have hne : ¬ m.role = "" := by
    rcases h with h | h <;> rw [h] <;> decide
  have hns : ¬ m.role = "system" := by
    rcases h with h | h <;> rw [h] <;> decide
  simp only [revMsgs, hgr]
  rw [if_neg hne, if_neg hns, if_pos h]

theorem flatten_nil_of_all {α : Type} (l : List (List α)) (h : ∀ x ∈ l, x = []) :
    l.flatten = [] := by
  induction l with
  | nil => rfl
  | cons x xs ih =>
    rw [List.flatten_cons, h x (List.mem_cons_self x xs), List.nil_append]
    exact ih fun y hy => h y (List.mem_cons_of_mem x hy)

theorem mainContent_rev (acc : FwdAcc) (hcp : ∀ p ∈ acc.contentParts, partOk p) :
    ∃ cbs, openAIMessageContentToAnthropicBlocks
        (if acc.hasNonText then OContent.parts acc.contentParts
         else OContent.str (String.join acc.textParts)) = .ok cbs
      ∧ blockToolUsePairs cbs = [] ∧ blockToolResultIds cbs = [] := by
  by_cases hnt : acc.hasNonText = true
  · rw [if_pos hnt]
    obtain ⟨bs2, hok, hp, hi⟩ := oPartsToABlocks_forward acc.contentParts hcp
    exact ⟨bs2, by simp only [openAIMessageContentToAnthropicBlocks]; exact hok, hp, hi⟩
  · rw [if_neg hnt]
    by_cases hs : goTrim (String.join acc.textParts) = ""
    · refine ⟨[], ?_, rfl, rfl⟩
      simp only [openAIMessageContentToAnthropicBlocks, if_pos hs]
    · refine ⟨[ABlock.text (String.join acc.textParts)], ?_, rfl, rfl⟩
      simp only [openAIMessageContentToAnthropicBlocks, if_neg hs]

theorem toolMessages_ok (blocks : List ABlock) (hok : ∀ b ∈ blocks, fwdBlockOk b) :
    ∀ tm ∈ blocks.filterMap fwdTMOf, tm.role = "tool"
      ∧ (∃ c, tm.content = OContent.str c)
      ∧ ∃ tuid, tm.toolCallID = some tuid ∧ ¬ goTrim tuid = "" := by
  intro tm hmem
  obtain ⟨b, hb, hfb⟩ := List.mem_filterMap.mp hmem
  cases b with
  | toolResult tuid content isErr =>
    simp only [fwdTMOf] at hfb
    injection hfb with hfb
    subst hfb
    exact ⟨rfl, ⟨_, rfl⟩, tuid, rfl, hok _ hb⟩
  | text t => exact absurd hfb (by simp [fwdTMOf])
  | thinking t => exact absurd hfb (by simp [fwdTMOf])
  | toolUse id name input => exact absurd hfb (by simp [fwdTMOf])
  | image src => exact absurd hfb (by simp [fwdTMOf])
  | other typ => exact absurd hfb (by simp [fwdTMOf])

theorem toolCalls_ok (blocks : List ABlock) (hok : ∀ b ∈ blocks, fwdBlockOk b) :
    ∀ tc ∈ blocks.filterMap fwdTCOf, ¬ goTrim tc.id = "" ∧ ¬ goTrim tc.name = ""
      ∧ tc.typ = "function" ∧ ∃ v, tc.args = OArgs.enc v := by
  intro tc hmem
  obtain ⟨b, hb, hfb⟩ := List.mem_filterMap.mp hmem
  cases b with
  | toolUse id name input =>
    simp only [fwdTCOf] at hfb
    injection hfb with hfb
    subst hfb
    obtain ⟨h1, h2⟩ := hok _ hb
    exact ⟨h1, h2, rfl, input, rfl⟩
  | text t => exact absurd hfb (by simp [fwdTCOf])
  | thinking t => exact absurd hfb (by simp [fwdTCOf])
  | toolResult tuid content isErr => exact absurd hfb (by simp [fwdTCOf])
  | image src => exact absurd hfb (by simp [fwdTCOf])
  | other typ => exact absurd hfb (by simp [fwdTCOf])

theorem revToolCallsOpt_forward (l : List OToolCall)
    (h : ∀ tc ∈ l, ¬ goTrim tc.id = "" ∧ ¬ goTrim tc.name = "" ∧ tc.typ = "function"
      ∧ ∃ v, tc.args = OArgs.enc v) :
    ∃ tubs, openAIToolCallsToAnthropicBlocks (if !l.isEmpty then some l else none) = .ok tubs
      ∧ blockToolUsePairs tubs = l.map (fun tc => (tc.id, tc.name))
      ∧ blockToolResultIds tubs = [] := by
  by_cases hl : l = []
  · subst hl
    exact ⟨[], rfl, rfl, rfl⟩
  · have hcond : (!l.isEmpty) = true := by
      simp [List.isEmpty_iff, hl]
    obtain ⟨bs2, hok, hp, hi⟩ := revToolCalls_forward l h
    refine ⟨bs2, ?_, hp, hi⟩
    rw [if_pos hcond]
    simp only [openAIToolCallsToAnthropicBlocks]
    exact hok

theorem revMsgs_forward_message (m : AMessage) (msgs : List OMsg)
    (hm : anthropicMessageToOpenAIMessages m = .ok msgs)
    (himg : msgGoodImages m)
    (hru : goTrim m.role = "user" → msgToolUsePairs m = []) :
    ∃ ams : List AMessage,
      revMsgs msgs = .ok ([], ams)
      ∧ ams.map (fun a => a.role)
          = goTrim m.role :: List.replicate (msgToolResultIds m).length "user"
      ∧ (ams.map msgToolUsePairs).flatten = msgToolUsePairs m
      ∧ (ams.map msgToolResultIds).flatten = (msgToolResultIds m).map goTrim := by
  simp only [anthropicMessageToOpenAIMessages] at hm
  by_cases h0 : goTrim m.role = ""
  · rw [if_pos h0] at hm
    exact absurd hm (by simp)
  · rw [if_neg h0] at hm
    cases hcb : anthropicContentToBlocks m.content with
    | error e =>
      rw [hcb] at hm
      exact absurd hm (by simp)
    | ok blocks =>
      rw [hcb] at hm
      simp only [] at hm
      cases hacc : collectBlocks blocks with
      | error e =>
        rw [hacc] at hm
        exact absurd hm (by simp)
      | ok acc =>
        rw [hacc] at hm
        simp only [] at hm
        obtain ⟨hok, hcp, htc, htm⟩ := collectBlocks_spec blocks acc hacc
        obtain ⟨hpairs_rel, hids_rel, hgood_rel⟩ := contentBlocks_rel m blocks hcb
        have hgood := hgood_rel himg
        have hcpok : ∀ p ∈ acc.contentParts, partOk p := by
          intro p hp
          rcases hcp p hp with ⟨t, ht⟩ | ⟨src, hsrc, hpart⟩
          · rw [ht]
            trivial
          · exact image_part_ok src p hpart (hgood _ hsrc)
        obtain ⟨cbs, hcbs, hcbsP, hcbsI⟩ := mainContent_rev acc hcpok
        obtain ⟨ams2, hok2, hroles2, hpairs2, hids2⟩ :=
          revMsgs_toolMessages acc.toolMessages
            (by rw [htm]; exact toolMessages_ok blocks hok)
        have hpairs2e : (ams2.map msgToolUsePairs).flatten = [] := by
          refine flatten_nil_of_all _ ?_
          intro x hx
          obtain ⟨a, ha, rfl⟩ := List.mem_map.mp hx
          exact hpairs2 a ha
        have hlen : acc.toolMessages.length = (msgToolResultIds m).length := by
          rw [htm, ← hids_rel]
          have hcg := congrArg List.length (blockToolResultIds_eq_filterMap blocks)
          simpa using hcg.symm
        have hidsEq : (ams2.map msgToolResultIds).flatten
            = (msgToolResultIds m).map goTrim := by
          rw [hids2, htm, ← blockToolResultIds_eq_filterMap, hids_rel]
        by_cases hu : goTrim m.role = "user"
        · rw [if_pos hu] at hm
          injection hm with hm
          subst hm
          refine ⟨⟨"user", AContent.blocks (cbs ++ [])⟩ :: ams2, ?_, ?_, ?_, ?_⟩
          · rw [revMsgs_cons_ua _ _ (Or.inl rfl)]
            simp only [hcbs, hok2, openAIToolCallsToAnthropicBlocks]
          · rw [List.map_cons, hroles2, hlen, hu]
          · rw [List.map_cons, List.flatten_cons, hpairs2e, List.append_nil]
            show blockToolUsePairs (cbs ++ []) = msgToolUsePairs m
            rw [List.append_nil, hcbsP, hru hu]
          · rw [List.map_cons, List.flatten_cons]
            show blockToolResultIds (cbs ++ []) ++ (ams2.map msgToolResultIds).flatten = _
            rw [List.append_nil, hcbsI, List.nil_append, hidsEq]
        · by_cases ha : goTrim m.role = "assistant"
          · rw [if_neg hu, if_pos ha] at hm
            injection hm with hm
            subst hm
            have htcok : ∀ tc ∈ acc.toolCalls, ¬ goTrim tc.id = "" ∧ ¬ goTrim tc.name = ""
                ∧ tc.typ = "function" ∧ ∃ v, tc.args = OArgs.enc v := by
              rw [htc]
              exact toolCalls_ok blocks hok
            obtain ⟨tubs, htubs, htubsP, htubsI⟩ := revToolCallsOpt_forward acc.toolCalls htcok
            refine ⟨⟨"assistant", AContent.blocks (cbs ++ tubs)⟩ :: ams2, ?_, ?_, ?_, ?_⟩
            · rw [revMsgs_cons_ua _ _ (Or.inr rfl)]
              simp only [hcbs, htubs, hok2]
            · rw [List.map_cons, hroles2, hlen, ha]
            · rw [List.map_cons, List.flatten_cons, hpairs2e, List.append_nil]
              show blockToolUsePairs (cbs ++ tubs) = msgToolUsePairs m
              rw [blockToolUsePairs_append, hcbsP, List.nil_append, htubsP, htc,
                ← blockToolUsePairs_eq_filterMap, hpairs_rel]
            · rw [List.map_cons, List.flatten_cons]
              show blockToolResultIds (cbs ++ tubs) ++ (ams2.map msgToolResultIds).flatten = _
              rw [blockToolResultIds_append, hcbsI, htubsI, List.nil_append, List.nil_append,
                hidsEq]
          · rw [if_neg hu, if_neg ha] at hm
            exact absurd hm (by simp)

theorem revMsgs_forward_all (ms : List AMessage) (msgsL : List (List OMsg))
    (hm : fwdMessages ms = .ok msgsL)
    (himg : ∀ m ∈ ms, msgGoodImages m)
    (hru : ∀ m ∈ ms, goTrim m.role = "user" → msgToolUsePairs m = []) :
    ∃ ams : List AMessage,
      revMsgs msgsL.flatten = .ok ([], ams)
      ∧ ams.map (fun a => a.role)
          = (ms.map fun m =>
              goTrim m.role :: List.replicate (msgToolResultIds m).length "user").flatten
      ∧ (ams.map msgToolUsePairs).flatten = (ms.map msgToolUsePairs).flatten
      ∧ (ams.map msgToolResultIds).flatten
          = ((ms.map msgToolResultIds).flatten).map goTrim := by
  induction ms generalizing msgsL with
  | nil =>
    simp only [fwdMessages] at hm
    injection hm with hm
    subst hm
    exact ⟨[], rfl, rfl, rfl, rfl⟩
  | cons m ms ih =>
    simp only [fwdMessages] at hm
    cases h1 : anthropicMessageToOpenAIMessages m with
    | error e =>
      rw [h1] at hm
      exact absurd hm (by simp)
    | ok msgs =>
      rw [h1] at hm
      simp only [] at hm
      cases h2 : fwdMessages ms with
      | error e =>
        rw [h2] at hm
        exact absurd hm (by simp)
      | ok rest =>
        rw [h2] at hm
        injection hm with hm
        subst hm
        obtain ⟨ams1, r1, roles1, pairs1, ids1⟩ :=
          revMsgs_forward_message m msgs h1 (himg m (List.mem_cons_self m ms))
            (hru m (List.mem_cons_self m ms))
        obtain ⟨ams2, r2, roles2, pairs2, ids2⟩ := ih rest h2
          (fun x hx => himg x (List.mem_cons_of_mem m hx))
          (fun x hx => hru x (List.mem_cons_of_mem m hx))
        refine ⟨ams1 ++ ams2, ?_, ?_, ?_, ?_⟩
        · rw [List.flatten_cons]
          have hall := revMsgs_append rest.flatten [] ams2 r2 msgs [] ams1 r1
          simpa using hall
        · rw [List.map_append, roles1, roles2, List.map_cons, List.flatten_cons]
        · rw [List.map_append, List.flatten_append, pairs1, pairs2, List.map_cons,
            List.flatten_cons]
        · rw [List.map_append, List.flatten_append, ids1, ids2, List.map_cons,
            List.flatten_cons, List.map_append]

theorem fwdTools_go_rev (ts : List AToolDef) (l : List OToolDef)
    (h : fwdTools.go ts = .ok l) :
    ∃ ats, openAIToolsToAnthropicTools.go l = .ok ats
      ∧ ats.map (fun t => t.name) = ts.map fun t => t.name := by
  induction ts generalizing l with
  | nil =>
    simp only [fwdTools.go] at h
    injection h with h
    subst h
    exact ⟨[], rfl, rfl⟩
  | cons t ts ih =>
    simp only [fwdTools.go] at h
    by_cases hn : goTrim t.name = ""
    · rw [if_pos hn] at h
      exact absurd h (by simp)
    · rw [if_neg hn] at h
      cases hg : fwdTools.go ts with
      | error e =>
        rw [hg] at h
        exact absurd h (by simp)
      | ok rest =>
        rw [hg] at h
        injection h with h
        subst h
        obtain ⟨ats, hok, hnames⟩ := ih rest hg
        refine ⟨⟨t.name, t.description,
          some (match t.inputSchema with
                | some v => v
                | none => Jx.obj [("type", Jx.str "object"), ("properties", Jx.obj [])])⟩ ::
          ats, ?_, ?_⟩
        · simp only [openAIToolsToAnthropicTools.go, if_neg hn, hok]
        · simp only [List.map_cons, hnames]

theorem revTools_forward (ts : List AToolDef) (ots : Option (List OToolDef))
    (h : fwdTools ts = .ok ots) :
    ∃ ats, openAIToolsToAnthropicTools ots = .ok ats
      ∧ ats.map (fun t => t.name) = ts.map fun t => t.name := by
  cases ts with
  | nil =>
    simp only [fwdTools] at h
    injection h with h
    subst h
    exact ⟨[], rfl, rfl⟩
  | cons t ts =>
    simp only [fwdTools] at h
    cases hg : fwdTools.go (t :: ts) with
    | error e =>
      rw [hg] at h
      exact absurd h (by simp [Except.map])
    | ok l =>
      rw [hg] at h
      simp only [Except.map] at h
      injection h with h
      subst h
      obtain ⟨ats, hok, hnames⟩ := fwdTools_go_rev (t :: ts) l hg
      exact ⟨ats, by simp only [openAIToolsToAnthropicTools]; exact hok, hnames⟩

theorem revToolChoice_forward (atc : Option ATC) (otc : Option OTCh)
    (h : fwdToolChoice atc = .ok otc) :
    ∃ atc2, revToolChoice otc = .ok atc2 := by
  cases atc with
  | none =>
    simp only [fwdToolChoice] at h
    injection h with h
    subst h
    exact ⟨none, rfl⟩
  | some c =>
    cases c with
    | auto =>
      simp only [fwdToolChoice] at h
      injection h with h
      subst h
      exact ⟨some .auto, rfl⟩
    | noneChoice =>
      simp only [fwdToolChoice] at h
      injection h with h
      subst h
      exact ⟨some .noneChoice, rfl⟩
    | anyChoice =>
      simp only [fwdToolChoice] at h
      injection h with h
      subst h
      exact ⟨some .anyChoice, rfl⟩
    | tool n =>
      simp only [fwdToolChoice] at h
      by_cases hn : goTrim n = ""
      · rw [if_pos hn] at h
        exact absurd h (by simp)
      · rw [if_neg hn] at h
        injection h with h
        subst h
        exact ⟨some (.tool n), by simp only [revToolChoice, if_neg hn]⟩
    | otherChoice typ =>
      simp only [fwdToolChoice] at h
      exact absurd h (by simp)

theorem revMsgs_cons_system (c : OContent) (ms : List OMsg) (sy : List String)
    (ams : List AMessage) (h : revMsgs ms = .ok (sy, ams)) :
    revMsgs ({ role := "system", content := c } :: ms)
      = .ok (stringifyOContent c :: sy, ams) := by
  have hgr : goTrim ("system" : String) = "system" := by decide
  simp only [revMsgs, hgr]
  rw [if_neg (show ¬ ("system" : String) = "" by decide), if_pos trivial, h]

/-- C6: amended round-trip. For an Anthropic request accepted by the forward
converter whose images are reverse-parseable and whose user messages carry no
`tool_use` blocks, the reverse conversion succeeds and preserves the system
text up to Go TrimSpace, turns each message into its trimmed-role main message
followed by one `user` message per `tool_result` block, and preserves the
ordered `tool_use` `(id, name)` pairs, the ordered `tool_result` ids up to
TrimSpace, and the tool-definition names. -/
theorem c6_round_trip_amended (r : AnthReq) (o : OReq)
    (hfwd : AnthropicToOpenAIChatRequest r = .ok o)
    (himg : ∀ m ∈ r.messages, msgGoodImages m)
    (hru : ∀ m ∈ r.messages, goTrim m.role = "user" → msgToolUsePairs m = []) :
    ∃ r2 : AnthReq, OpenAIToAnthropicMessageRequest o = .ok r2
      ∧ sysTextOf r2.system = goTrim (sysTextOf r.system)
      ∧ r2.messages.map (fun m => m.role)
          = (r.messages.map fun m =>
              goTrim m.role :: List.replicate (msgToolResultIds m).length "user").flatten
      ∧ reqToolUsePairs r2 = reqToolUsePairs r
      ∧ reqToolResultIds r2 = (reqToolResultIds r).map goTrim
      ∧ r2.tools.map (fun t => t.name) = r.tools.map fun t => t.name := by
  simp only [AnthropicToOpenAIChatRequest] at hfwd
  cases hms : fwdMessages r.messages with
  | error e =>
    rw [hms] at hfwd
    exact absurd hfwd (by simp)
  | ok msgLists =>
    rw [hms] at hfwd
    simp only [] at hfwd
    cases hts : fwdTools r.tools with
    | error e =>
      rw [hts] at hfwd
      exact absurd hfwd (by simp)
    | ok tools2 =>
      rw [hts] at hfwd
      simp only [] at hfwd
      cases htc : fwdToolChoice r.toolChoice with
      | error e =>
        rw [htc] at hfwd
        exact absurd hfwd (by simp)
      | ok tc2 =>
        rw [htc] at hfwd
        injection hfwd with hfwd
        subst hfwd
        obtain ⟨ams, hrev, hroles, hpairs, hids⟩ :=
          revMsgs_forward_all r.messages msgLists hms himg hru
        obtain ⟨ats, hats, hnames⟩ := revTools_forward r.tools tools2 hts
        obtain ⟨atc2, hatc2⟩ := revToolChoice_forward r.toolChoice tc2 htc
        have hrevm : ∃ sysL, revMsgs
            ((if goTrim (sysTextOf r.system) ≠ "" then
                [{ role := "system", content := OContent.str (sysTextOf r.system) }]
              else []) ++ msgLists.flatten)
            = .ok (sysL, ams)
            ∧ goTrim (joinWithNl sysL) = goTrim (sysTextOf r.system) := by
          by_cases hsys : goTrim (sysTextOf r.system) ≠ ""
          · refine ⟨[sysTextOf r.system], ?_, ?_⟩
            · rw [if_pos hsys, List.singleton_append]
              exact revMsgs_cons_system (OContent.str (sysTextOf r.system))
                msgLists.flatten [] ams hrev
            · rfl
          · refine ⟨[], ?_, ?_⟩
            · rw [if_neg hsys, List.nil_append]
              exact hrev
            · rw [not_not.mp hsys]
              decide
        obtain ⟨sysL, hR, hjoin⟩ := hrevm
        refine ⟨{ model := r.model
                  maxTokens := if 0 < r.maxTokens then r.maxTokens else 1024
                  messages := ams
                  system :=
                    if goTrim (sysTextOf r.system) ≠ "" then
                      some (SysVal.str (goTrim (sysTextOf r.system)))
                    else none
                  temperature := r.temperature
                  topP := r.topP
                  stream := r.stream
                  tools := ats
                  toolChoice := atc2 }, ?_, ?_, ?_, ?_, ?_, ?_⟩
        · simp only [OpenAIToAnthropicMessageRequest, hR, hats, hatc2, hjoin]
        · by_cases hsys : goTrim (sysTextOf r.system) = ""
          · show sysTextOf (if goTrim (sysTextOf r.system) ≠ "" then
                some (SysVal.str (goTrim (sysTextOf r.system))) else none)
              = goTrim (sysTextOf r.system)
            rw [if_neg (not_not_intro hsys)]
            show ("" : String) = goTrim (sysTextOf r.system)
            rw [hsys]
          · show sysTextOf (if goTrim (sysTextOf r.system) ≠ "" then
                some (SysVal.str (goTrim (sysTextOf r.system))) else none)
              = goTrim (sysTextOf r.system)
            rw [if_pos hsys]
            rfl
        · exact hroles
        · exact hpairs
        · exact hids
        · exact hnames

/-- C6: the round trip as claimed is false: on `c6CReq` the reverse pass does
not preserve the system text (it is trimmed) nor the message list's roles (the
`tool_result` block becomes a second `user` message). -/
theorem c6_round_trip_counterexample :
    ¬ (∀ (r : AnthReq) (o : OReq), AnthropicToOpenAIChatRequest r = .ok o →
        ∃ r2 : AnthReq, OpenAIToAnthropicMessageRequest o = .ok r2
          ∧ sysTextOf r2.system = sysTextOf r.system
          ∧ r2.messages.map (fun m => m.role) = r.messages.map fun m => m.role) := by
  intro hcl
  obtain ⟨r2, hok, hsys, hroles⟩ := hcl c6CReq c6CFwd (by rfl)
  rw [show OpenAIToAnthropicMessageRequest c6CFwd = .ok c6CRev from rfl] at hok
  injection hok with hok
  subst hok
  exact absurd hroles (by decide)

/-- Witness for C6: the amended round-trip theorem applied to `c6CReq`. -/
theorem c6_round_trip_amended_witness :
    AnthropicToOpenAIChatRequest c6CReq = .ok c6CFwd
    ∧ ∃ r2 : AnthReq, OpenAIToAnthropicMessageRequest c6CFwd = .ok r2
      ∧ sysTextOf r2.system = goTrim (sysTextOf c6CReq.system)
      ∧ r2.messages.map (fun m => m.role)
          = (c6CReq.messages.map fun m =>
              goTrim m.role :: List.replicate (msgToolResultIds m).length "user").flatten
      ∧ reqToolUsePairs r2 = reqToolUsePairs c6CReq
      ∧ reqToolResultIds r2 = (reqToolResultIds c6CReq).map goTrim
      ∧ r2.tools.map (fun t => t.name) = c6CReq.tools.map fun t => t.name :=
  ⟨rfl, c6_round_trip_amended c6CReq c6CFwd rfl
    (by
      intro m hm
      simp only [c6CReq, List.mem_singleton] at hm
      subst hm
      intro b hb
      rcases List.mem_cons.mp hb with h | h
      · rw [h]
        trivial
      · rw [List.mem_singleton] at h
        rw [h]
        trivial)
    (by
      intro m hm hrole
      simp only [c6CReq, List.mem_singleton] at hm
      subst hm
      decide)⟩

end Gateway
